import Mathlib

/-! Pricing of meTokens: `x/metoken/keeper/price.go`.

A shallow embedding of `Keeper.Prices`, `latestPrice`, `valueInUSD` and `priceInUSD`,
together with the fixed-point decimal arithmetic they are built on, followed by the
properties of the valuation that the specification states.

Conventions of the embedding.

* `sdk.Dec` is an 18-decimal fixed-point number stored as an integer (the value times
  `10^18`).  Its operations panic when the result needs more than `256 + 59` bits and when a
  divisor is zero; an operation that may panic returns `Option Dec`, `none` being the panic.
* `sdkmath.Int` amounts are integers; `uint32` exponents and `uint64` block numbers are
  natural numbers (no arithmetic that could wrap is performed on them).
* A Go function returning `(sdk.Dec, error)` returns a `Result Dec`; `Prices`, which returns
  an `IndexPrices` value next to its error, returns a `Ret` that keeps that value.
* The keepers `Prices` reads from (index balances, oracle medians, leverage token settings)
  are the fields of `Keeper`.
-/

set_option exponentiation.threshold 512

namespace Metoken

/-! ## Errors and results -/

/-- The errors that can come out of `Prices`. -/
inductive Error where
  /-- The `sdkerrors.ErrNotFound.Wrapf("balance for denom %s not found", denom)` of `Prices`;
  the wrapping puts the text in front of the `not found` of `ErrNotFound`. -/
  | balanceNotFound (denom : String)
  /-- The `fmt.Errorf("price not found in oracle for denom %s", symbolDenom)` of `latestPrice`. -/
  | priceNotFound (symbolDenom : String)
  /-- The fault of `ExponentFactor` for an exponent difference with no scaling factor. -/
  | invalidExponent (exponentDiff : Int)
  /-- The fault of `Rate` for a zero denominator price. -/
  | zeroPrice
  /-- An error handed back by one of the keepers (`IndexBalances`, `GetTokenSettings`). -/
  | keeper (msg : String)
deriving DecidableEq

/-- The text of an error. -/
def Error.message : Error → String
  | .balanceNotFound denom => "balance for denom " ++ denom ++ " not found: not found"
  | .priceNotFound symbolDenom => "price not found in oracle for denom " ++ symbolDenom
  | .invalidExponent _ => "invalid exponent"
  | .zeroPrice => "zero price"
  | .keeper msg => msg

/-- Outcome of a Go function returning `(T, error)` that may also panic. -/
inductive Result (α : Type) where
  | ok (a : α)
  | error (e : Error)
  | panic
deriving DecidableEq

/-! ## `sdk.Dec` -/

/-- An `sdk.Dec`: the integer `i` stands for the decimal `i / 10^18`. -/
structure Dec where
  i : Int
deriving DecidableEq

namespace Dec

/-- Number of decimal places. -/
def Precision : Nat := 18

/-- The integer `10^18`, one unit. -/
def precisionReuse : Int := 10 ^ Precision

/-- Largest bit length of the integer behind a `Dec`: the `256` bits of an integer and
`60 - 1` bits for the decimals. -/
def maxDecBitLen : Nat := 315

/-- The overflow check `if x.BitLen() > maxDecBitLen { panic("Int overflow") }`. -/
def checked (x : Int) : Option Dec :=
  if x.natAbs < 2 ^ maxDecBitLen then some ⟨x⟩ else none

/-- The decimal `sdk.ZeroDec()`. -/
def ZeroDec : Dec := ⟨0⟩

/-- The decimal `sdk.OneDec()`. -/
def OneDec : Dec := ⟨precisionReuse⟩

/-- The decimal of an integer, `sdk.NewDec`. -/
def ofInt (n : Int) : Dec := ⟨n * precisionReuse⟩

/-- Test `d.IsZero()`. -/
def IsZero (d : Dec) : Bool := d.i == 0

/-- Rounding of a non-negative integer with 36 decimals of precision to 18: the quotient and
the remainder by `10^18` are taken, and the remainder is compared with `fivePrecision`, half
a unit; on a tie the quotient is rounded to an even number. -/
def chopPrecisionAndRoundNat (d : Nat) : Nat :=
  let quo := d / 10 ^ Precision
  let rem := d % 10 ^ Precision
  if rem = 0 then quo
  else if rem < 5 * 10 ^ 17 then quo
  else if 5 * 10 ^ 17 < rem then quo + 1
  else if quo % 2 = 0 then quo else quo + 1

/-- The function `chopPrecisionAndRound`: the sign is removed, the magnitude is rounded
half to even, and the sign is put back. -/
def chopPrecisionAndRound (d : Int) : Int :=
  if d < 0 then -((chopPrecisionAndRoundNat d.natAbs : Nat) : Int)
  else ((chopPrecisionAndRoundNat d.natAbs : Nat) : Int)

/-- Sum `d.Add(d2)`. -/
def Add (d d2 : Dec) : Option Dec := checked (d.i + d2.i)

/-- Product `d.Mul(d2)`, rounded half to even. -/
def Mul (d d2 : Dec) : Option Dec := checked (chopPrecisionAndRound (d.i * d2.i))

/-- Product `d.MulInt(i)` with an integer: no rounding takes place. -/
def MulInt (d : Dec) (n : Int) : Option Dec := checked (d.i * n)

/-- Quotient `d.Quo(d2)`: the dividend gets 36 more decimals, the integer division truncates
towards zero (and panics on a zero divisor), the result is rounded back to 18 decimals. -/
def Quo (d d2 : Dec) : Option Dec :=
  if d2.i = 0 then none
  else checked (chopPrecisionAndRound (Int.tdiv (d.i * precisionReuse * precisionReuse) d2.i))

/-- Quotient `d.QuoInt(i)` by an integer: truncated towards zero, panics on a zero divisor. -/
def QuoInt (d : Dec) (n : Int) : Option Dec :=
  if n = 0 then none else some ⟨Int.tdiv d.i n⟩

end Dec

/-! ## Data model -/

/-- An accepted asset of an index (`metoken.AcceptedAsset`); only its denom is read here. -/
structure AcceptedAsset where
  Denom : String
deriving DecidableEq

/-- The index of a meToken (`metoken.Index`): denom, exponent and accepted assets. -/
structure Index where
  Denom : String
  Exponent : Nat
  AcceptedAssets : List AcceptedAsset
deriving DecidableEq

/-- The token settings of the leverage module; `Prices` reads the symbol denom and the
exponent. -/
structure Token where
  SymbolDenom : String
  Exponent : Nat
deriving DecidableEq

/-- An `otypes.ExchangeRateTuple`. -/
structure ExchangeRateTuple where
  Denom : String
  ExchangeRate : Dec
deriving DecidableEq

/-- An `otypes.Price`: a median with the block number it was recorded at. -/
structure Price where
  ExchangeRateTuple : ExchangeRateTuple
  BlockNum : Nat
deriving DecidableEq

/-- Modelled from the spec: `metoken.AssetBalance` is not among the source files.  The
reserve state holds, per accepted asset, "its currently available reserve amount", an
integer in the smallest denomination. -/
structure AssetBalance where
  Denom : String
  Available : Int
deriving DecidableEq

/-- Modelled from the spec: `AssetBalance.AvailableSupply` is not among the source files; it
is the currently available reserve amount of the asset. -/
def AssetBalance.AvailableSupply (ab : AssetBalance) : Int := ab.Available

/-- Modelled from the spec: `metoken.IndexBalances` is not among the source files.  It holds
"the total issued index-token amount" and the balance entries of the assets. -/
structure IndexBalances where
  MetokenSupply : Int
  AssetBalances : List AssetBalance
deriving DecidableEq

/-- The search of `IndexBalances.AssetBalance` through the entries from position `i` on. -/
def assetBalanceFrom (denom : String) : List AssetBalance → Nat → AssetBalance × Int
  | [], _ => (⟨"", 0⟩, -1)
  | balance :: rest, i =>
    if balance.Denom = denom then (balance, (i : Int)) else assetBalanceFrom denom rest (i + 1)

/-- Modelled from the spec: `IndexBalances.AssetBalance` is not among the source files.  It
returns the balance entry of a denom with its position, and position `-1` when the denom
has no entry ("absence" of the balance entry of an accepted asset). -/
def IndexBalances.AssetBalance (ib : IndexBalances) (denom : String) : AssetBalance × Int :=
  assetBalanceFrom denom ib.AssetBalances 0

/-- An entry of `IndexPrices.Assets` (`metoken.AssetPrice`).  The rates are unset until the
index price is known. -/
structure AssetPrice where
  BaseDenom : String
  SymbolDenom : String
  Price : Dec
  Exponent : Nat
  SwapRate : Option Dec
  RedeemRate : Option Dec
deriving DecidableEq

/-- The result of `Prices` (`metoken.IndexPrices`); `Price` is unset until computed. -/
structure IndexPrices where
  Denom : String
  Price : Option Dec
  Exponent : Nat
  Assets : List AssetPrice
deriving DecidableEq

/-- Modelled from the spec: `metoken.EmptyIndexPrices` is not among the source files.  It is
the valuation of the index with its exponent, no price and no entry. -/
def EmptyIndexPrices (index : Index) : IndexPrices :=
  { Denom := index.Denom, Price := none, Exponent := index.Exponent, Assets := [] }

/-- Modelled from the spec: `IndexPrices.SetPrice` is not among the source files.  It
records one more entry, after the ones recorded so far. -/
def IndexPrices.SetPrice (ip : IndexPrices) (price : AssetPrice) : IndexPrices :=
  { ip with Assets := ip.Assets ++ [price] }

/-- The keepers read by `Prices`: the balances of an index, the medians of the oracle and
the token settings of the leverage module. -/
structure Keeper where
  IndexBalances : String → Except Error IndexBalances
  AllMedianPrices : List Price
  GetTokenSettings : String → Except Error Token

/-! ## Exponent factor and rate -/

/-- Modelled from the spec: `metoken.ExponentFactor` is not among the source files.  The
scaling factor `10^(resultExponent - initialExponent)` "as an exact decimal", and a fault
when the factor is "outside the supported precision range": an 18-decimal number of at most
`315` bits holds `10^d` exactly for `-18 ≤ d ≤ 76`. -/
def ExponentFactor (initialExponent resultExponent : Nat) : Except Error Dec :=
  let exponentDiff : Int := (resultExponent : Int) - (initialExponent : Int)
  if -18 ≤ exponentDiff ∧ exponentDiff ≤ 76 then
    .ok ⟨10 ^ (exponentDiff + 18).toNat⟩
  else
    .error (.invalidExponent exponentDiff)

/-- Modelled from the spec: `metoken.Rate` is not among the source files.  The fault
`zeroPrice` "if `priceTo` is zero (must be checked before division)", then
`priceFrom / priceTo`, then the exponent adjustment `10^(exponentTo - exponentFrom)`. -/
def Rate (priceFrom priceTo : Dec) (exponentFrom exponentTo : Nat) : Result Dec :=
  if priceTo.IsZero then .error .zeroPrice
  else
    match priceFrom.Quo priceTo with
    | none => .panic
    | some quotient =>
      match ExponentFactor exponentFrom exponentTo with
      | .error err => .error err
      | .ok exponentFactor =>
        match quotient.Mul exponentFactor with
        | none => .panic
        | some rate => .ok rate

/-! ## `price.go` -/

/-- The variable `usdExponent`. -/
def usdExponent : Nat := 0

/-- One step of the loop of `latestPrice`: the price replaces the current choice when its
denom is the symbol and its block number is strictly greater. -/
def latestPriceStep (symbolDenom : String) (latest price : Price) : Price :=
  if price.ExchangeRateTuple.Denom = symbolDenom ∧ price.BlockNum > latest.BlockNum then price
  else latest

/-- The zero value `otypes.Price{}` the loop of `latestPrice` starts from.  Its exchange
rate is never returned: a result with block number zero is an error. -/
def emptyPrice : Price := ⟨⟨"", ⟨0⟩⟩, 0⟩

/-- The function `latestPrice`: from the list of medians, based on the block number. -/
def latestPrice (prices : List Price) (symbolDenom : String) : Except Error Dec :=
  let latest := prices.foldl (latestPriceStep symbolDenom) emptyPrice
  if latest.BlockNum = 0 then .error (.priceNotFound symbolDenom)
  else .ok latest.ExchangeRateTuple.ExchangeRate

/-- The function `valueInUSD`: given a specific amount, price and exponent. -/
def valueInUSD (amount : Int) (assetPrice : Dec) (assetExponent : Nat) : Result Dec :=
  match ExponentFactor assetExponent usdExponent with
  | .error err => .error err
  | .ok exponentFactor =>
    match exponentFactor.MulInt amount with
    | none => .panic
    | some scaled =>
      match scaled.Mul assetPrice with
      | none => .panic
      | some value => .ok value

/-- The function `priceInUSD`: given a specific amount, totalValue and exponent. -/
def priceInUSD (amount : Int) (totalValue : Dec) (assetExponent : Nat) : Result Dec :=
  match ExponentFactor assetExponent usdExponent with
  | .error err => .error err
  | .ok exponentFactor =>
    match exponentFactor.MulInt amount with
    | none => .panic
    | some divisor =>
      match totalValue.Quo divisor with
      | none => .panic
      | some price => .ok price

/-- What `Prices` hands back: a valuation, or an error next to the `IndexPrices` value
returned with it, or a panic. -/
inductive Ret where
  | ok (indexPrices : IndexPrices)
  | fail (indexPrices : IndexPrices) (err : Error)
  | panic
deriving DecidableEq

/-- The state of a loop of `Prices` after an iteration: it goes on with a new state, or
`Prices` returns an error next to the `IndexPrices` value at hand, or it panics. -/
inductive Step (σ : Type) where
  | next (s : σ)
  | fail (indexPrices : IndexPrices) (err : Error)
  | panic
deriving DecidableEq

/-- The first loop of `Prices` (lines 29 to 66), over the accepted assets still to be
visited, from the current `indexPrices` and `totalAssetsUSDValue`. -/
def valuationLoop (k : Keeper) (supply : IndexBalances) (allPrices : List Price) :
    List AcceptedAsset → IndexPrices → Dec → Step (IndexPrices × Dec)
  | [], indexPrices, totalAssetsUSDValue => .next (indexPrices, totalAssetsUSDValue)
  | aa :: rest, indexPrices, totalAssetsUSDValue =>
    match k.GetTokenSettings aa.Denom with
    | .error err => .fail indexPrices err
    | .ok tokenSettings =>
      match latestPrice allPrices tokenSettings.SymbolDenom with
      | .error err => .fail indexPrices err
      | .ok assetPrice =>
        let indexPrices := indexPrices.SetPrice
          { BaseDenom := aa.Denom
            SymbolDenom := tokenSettings.SymbolDenom
            Price := assetPrice
            Exponent := tokenSettings.Exponent
            SwapRate := none
            RedeemRate := none }
        if supply.MetokenSupply = 0 then
          match totalAssetsUSDValue.Add assetPrice with
          | none => .panic
          | some total => valuationLoop k supply allPrices rest indexPrices total
        else
          let (balance, i) := supply.AssetBalance aa.Denom
          if i < 0 then .fail indexPrices (.balanceNotFound aa.Denom)
          else
            match valueInUSD balance.AvailableSupply assetPrice tokenSettings.Exponent with
            | .panic => .panic
            | .error err => .fail indexPrices err
            | .ok assetUSDValue =>
              match totalAssetsUSDValue.Add assetUSDValue with
              | none => .panic
              | some total => valuationLoop k supply allPrices rest indexPrices total

/-- The computation of the index price (lines 68 to 78) from the state the first loop ends
in. -/
def indexPriceStage (index : Index) (supply : IndexBalances) (indexPrices : IndexPrices)
    (totalAssetsUSDValue : Dec) : Step IndexPrices :=
  if supply.MetokenSupply = 0 then
    match totalAssetsUSDValue.QuoInt (index.AcceptedAssets.length : Int) with
    | none => .panic
    | some price => .next { indexPrices with Price := some price }
  else
    match priceInUSD supply.MetokenSupply totalAssetsUSDValue index.Exponent with
    | .panic => .panic
    | .error err => .fail indexPrices err
    | .ok meTokenPrice => .next { indexPrices with Price := some meTokenPrice }

/-- Outcome of the second loop of `Prices` on a list of entries: all entries with their
rates, or the entries as they stand when a rate fails, or a panic. -/
inductive RateFill where
  | done (assets : List AssetPrice)
  | stopped (assets : List AssetPrice) (err : Error)
  | panic
deriving DecidableEq

/-- The second loop of `Prices` (lines 80 to 94) over the entries from position `i` on:
both rates of an entry are derived from the index price before either is stored. -/
def fillRates (price : Dec) (exponent : Nat) : List AssetPrice → RateFill
  | [] => .done []
  | asset :: rest =>
    match Rate asset.Price price asset.Exponent exponent with
    | .panic => .panic
    | .error err => .stopped (asset :: rest) err
    | .ok swapRate =>
      match Rate price asset.Price exponent asset.Exponent with
      | .panic => .panic
      | .error err => .stopped (asset :: rest) err
      | .ok redeemRate =>
        let filled := { asset with SwapRate := some swapRate, RedeemRate := some redeemRate }
        match fillRates price exponent rest with
        | .panic => .panic
        | .stopped assets err => .stopped (filled :: assets) err
        | .done assets => .done (filled :: assets)

/-- The part of `Prices` before the second loop (lines 18 to 78): the `IndexPrices` with
every asset price recorded and the index price set. -/
def valuation (k : Keeper) (index : Index) : Step IndexPrices :=
  let indexPrices := EmptyIndexPrices index
  match k.IndexBalances index.Denom with
  | .error err => .fail indexPrices err
  | .ok supply =>
    let allPrices := k.AllMedianPrices
    match valuationLoop k supply allPrices index.AcceptedAssets indexPrices Dec.ZeroDec with
    | .panic => .panic
    | .fail indexPrices err => .fail indexPrices err
    | .next (indexPrices, totalAssetsUSDValue) =>
      indexPriceStage index supply indexPrices totalAssetsUSDValue

/-- The second loop of `Prices` and its return (lines 80 to 96). -/
def rateStage (indexPrices : IndexPrices) : Ret :=
  match indexPrices.Price with
  | none => .panic
  | some price =>
    match fillRates price indexPrices.Exponent indexPrices.Assets with
    | .panic => .panic
    | .stopped assets err => .fail { indexPrices with Assets := assets } err
    | .done assets => .ok { indexPrices with Assets := assets }

/-- The method `Keeper.Prices`: the meToken price as an average of the median prices of all
accepted assets of the index, or the value of the reserves per meToken minted. -/
def Prices (k : Keeper) (index : Index) : Ret :=
  match valuation k index with
  | .panic => .panic
  | .fail indexPrices err => .fail indexPrices err
  | .next indexPrices => rateStage indexPrices

/-! ## Vocabulary of the statements -/

/-- The entry `Prices` records for an accepted asset: the token settings of its denom and
the latest median of their symbol denom; `none` when either lookup fails. -/
def recordedEntry (k : Keeper) (aa : AcceptedAsset) : Option AssetPrice :=
  match k.GetTokenSettings aa.Denom with
  | .error _ => none
  | .ok tokenSettings =>
    match latestPrice k.AllMedianPrices tokenSettings.SymbolDenom with
    | .error _ => none
    | .ok assetPrice =>
      some
        { BaseDenom := aa.Denom
          SymbolDenom := tokenSettings.SymbolDenom
          Price := assetPrice
          Exponent := tokenSettings.Exponent
          SwapRate := none
          RedeemRate := none }

/-- The price `Prices` resolves for an accepted asset. -/
def resolvedPrice (k : Keeper) (aa : AcceptedAsset) : Option Dec :=
  (recordedEntry k aa).map (fun entry => entry.Price)

/-- The value in USD of the reserves of an accepted asset: `valueInUSD` of the available
supply of its balance entry, at its resolved price and exponent; `none` when a lookup
fails, the balance entry is missing or `valueInUSD` does not return a value. -/
def reserveValue (k : Keeper) (supply : IndexBalances) (aa : AcceptedAsset) : Option Dec :=
  match recordedEntry k aa with
  | none => none
  | some entry =>
    if (supply.AssetBalance aa.Denom).2 < 0 then none
    else
      match valueInUSD (supply.AssetBalance aa.Denom).1.AvailableSupply entry.Price
          entry.Exponent with
      | .ok value => some value
      | _ => none

/-- The sum of a list of decimals, as an integer number of units of `10^-18`. -/
def sumUnits (ds : List Dec) : Int := (ds.map (fun d => d.i)).sum

/-! ## Scenarios -/

/-- The keepers of the scenario of the specification: two accepted assets of exponents 6
and 18 with prices 1.00 and 2000.00, and no meToken minted. -/
def meanKeeper : Keeper where
  IndexBalances := fun _ => .ok ⟨0, []⟩
  AllMedianPrices := [⟨⟨"USDT", Dec.ofInt 1⟩, 10⟩, ⟨⟨"ETH", Dec.ofInt 2000⟩, 10⟩]
  GetTokenSettings := fun denom =>
    if denom = "uusdt" then .ok ⟨"USDT", 6⟩
    else if denom = "weth" then .ok ⟨"ETH", 18⟩
    else .error (.keeper "token not registered")

/-- The index of the scenario, of exponent 6. -/
def meanIndex : Index := ⟨"me/USD", 6, [⟨"uusdt"⟩, ⟨"weth"⟩]⟩

/-- The valuation `Prices` returns in the scenario: index price 1000.50. -/
def meanResult : IndexPrices :=
  { Denom := "me/USD"
    Price := some ⟨1000500000000000000000⟩
    Exponent := 6
    Assets :=
      [{ BaseDenom := "uusdt", SymbolDenom := "USDT", Price := ⟨1000000000000000000⟩,
         Exponent := 6, SwapRate := some ⟨999500249875062⟩,
         RedeemRate := some ⟨1000500000000000000000⟩ },
       { BaseDenom := "weth", SymbolDenom := "ETH", Price := ⟨2000000000000000000000⟩,
         Exponent := 18, SwapRate := some ⟨1999000⟩,
         RedeemRate := some ⟨500250000000000000000000000000⟩ }] }

/-- The balances of the second scenario: 100 meTokens minted at exponent 6 and reserves of
20000 `USDT` and 15 `ETH`, worth 50000 in total. -/
def valueBalances : IndexBalances :=
  ⟨100000000, [⟨"weth", 15000000000000000000⟩, ⟨"uusdt", 20000000000⟩]⟩

/-- The keepers of the second scenario: the prices and settings of the first one, with
the balances `valueBalances`. -/
def valueKeeper : Keeper where
  IndexBalances := fun _ => .ok valueBalances
  AllMedianPrices := [⟨⟨"USDT", Dec.ofInt 1⟩, 10⟩, ⟨⟨"ETH", Dec.ofInt 2000⟩, 10⟩]
  GetTokenSettings := fun denom =>
    if denom = "uusdt" then .ok ⟨"USDT", 6⟩
    else if denom = "weth" then .ok ⟨"ETH", 18⟩
    else .error (.keeper "token not registered")

/-- The valuation `Prices` returns in the second scenario: index price 500. -/
def valueResult : IndexPrices :=
  { Denom := "me/USD"
    Price := some ⟨500000000000000000000⟩
    Exponent := 6
    Assets :=
      [{ BaseDenom := "uusdt", SymbolDenom := "USDT", Price := ⟨1000000000000000000⟩,
         Exponent := 6, SwapRate := some ⟨2000000000000000⟩,
         RedeemRate := some ⟨500000000000000000000⟩ },
       { BaseDenom := "weth", SymbolDenom := "ETH", Price := ⟨2000000000000000000000⟩,
         Exponent := 18, SwapRate := some ⟨4000000⟩,
         RedeemRate := some ⟨250000000000000000000000000000⟩ }] }

/-- An index without accepted assets. -/
def emptyIndex : Index := ⟨"me/USD", 6, []⟩

/-- The keepers of the scenario of a missing price: `uusdt` and `uatom` are registered, the
oracle has a median for `USDT` only, and no meToken is minted. -/
def gapKeeper : Keeper where
  IndexBalances := fun _ => .ok ⟨0, []⟩
  AllMedianPrices := [⟨⟨"USDT", Dec.ofInt 1⟩, 10⟩]
  GetTokenSettings := fun denom =>
    if denom = "uusdt" then .ok ⟨"USDT", 6⟩
    else if denom = "uatom" then .ok ⟨"ATOM", 6⟩
    else .error (.keeper "token not registered")

/-- The index of the scenario of a missing price. -/
def gapIndex : Index := ⟨"me/USD", 6, [⟨"uusdt"⟩, ⟨"uatom"⟩]⟩

/-- The `IndexPrices` value `Prices` returns next to the error in the scenario of a missing
price: the entry of `uusdt` is recorded. -/
def gapResult : IndexPrices :=
  { Denom := "me/USD"
    Price := none
    Exponent := 6
    Assets :=
      [{ BaseDenom := "uusdt", SymbolDenom := "USDT", Price := ⟨1000000000000000000⟩,
         Exponent := 6, SwapRate := none, RedeemRate := none }] }

/-- The keepers of the scenario of a zero price: the median of `ATOM` is zero and no
meToken is minted. -/
def zeroKeeper : Keeper where
  IndexBalances := fun _ => .ok ⟨0, []⟩
  AllMedianPrices := [⟨⟨"USDT", Dec.ofInt 1⟩, 10⟩, ⟨⟨"ATOM", Dec.ofInt 0⟩, 10⟩]
  GetTokenSettings := fun denom =>
    if denom = "uusdt" then .ok ⟨"USDT", 6⟩
    else if denom = "uatom" then .ok ⟨"ATOM", 6⟩
    else .error (.keeper "token not registered")

/-- The entry recorded for `uusdt` at price 1.00. -/
def usdtEntry : AssetPrice :=
  { BaseDenom := "uusdt", SymbolDenom := "USDT", Price := ⟨1000000000000000000⟩,
    Exponent := 6, SwapRate := none, RedeemRate := none }

/-- The entry recorded for `uatom` at price zero. -/
def atomZeroEntry : AssetPrice :=
  { BaseDenom := "uatom", SymbolDenom := "ATOM", Price := ⟨0⟩,
    Exponent := 6, SwapRate := none, RedeemRate := none }

/-- The state before the second loop in the scenario of a zero price: index price 0.50. -/
def zeroValued : IndexPrices :=
  { Denom := "me/USD", Price := some ⟨500000000000000000⟩, Exponent := 6,
    Assets := [usdtEntry, atomZeroEntry] }

/-- The balances of the scenario of a missing balance: meTokens are minted and only
`uusdt` has a balance entry. -/
def missBalances : IndexBalances := ⟨100000000, [⟨"uusdt", 5000000⟩]⟩

/-- The keepers of the scenario of a missing balance. -/
def missKeeper : Keeper where
  IndexBalances := fun _ => .ok missBalances
  AllMedianPrices := [⟨⟨"USDT", Dec.ofInt 1⟩, 10⟩, ⟨⟨"ATOM", Dec.ofInt 9⟩, 10⟩]
  GetTokenSettings := fun denom =>
    if denom = "uusdt" then .ok ⟨"USDT", 6⟩
    else if denom = "uatom" then .ok ⟨"ATOM", 6⟩
    else .error (.keeper "token not registered")

/-- The keepers of the scenario of two missing balances: meTokens are minted and there is
no balance entry at all. -/
def bareKeeper : Keeper where
  IndexBalances := fun _ => .ok ⟨100000000, []⟩
  AllMedianPrices := [⟨⟨"USDT", Dec.ofInt 1⟩, 10⟩, ⟨⟨"ATOM", Dec.ofInt 9⟩, 10⟩]
  GetTokenSettings := fun denom =>
    if denom = "uusdt" then .ok ⟨"USDT", 6⟩
    else if denom = "uatom" then .ok ⟨"ATOM", 6⟩
    else .error (.keeper "token not registered")

/-- The keepers of the scenario of an exponent without factor: `uusdt` is registered with
exponent 19 and has a balance entry, `uatom` has none. -/
def farKeeper : Keeper where
  IndexBalances := fun _ => .ok missBalances
  AllMedianPrices := [⟨⟨"USDT", Dec.ofInt 1⟩, 10⟩, ⟨⟨"ATOM", Dec.ofInt 9⟩, 10⟩]
  GetTokenSettings := fun denom =>
    if denom = "uusdt" then .ok ⟨"USDT", 19⟩
    else if denom = "uatom" then .ok ⟨"ATOM", 6⟩
    else .error (.keeper "token not registered")

/-- The entry recorded for `uatom` at price 9.00. -/
def atomEntry : AssetPrice :=
  { BaseDenom := "uatom", SymbolDenom := "ATOM", Price := ⟨9000000000000000000⟩,
    Exponent := 6, SwapRate := none, RedeemRate := none }

/-- An `IndexPrices` value of the index `me/USD` without index price. -/
def unpriced (assets : List AssetPrice) : IndexPrices :=
  { Denom := "me/USD", Price := none, Exponent := 6, Assets := assets }

/-- The keepers of the first scenario with another reserve state: still no meToken
minted, but balance entries for `weth` and for a denom that is not accepted, and none for
`uusdt`. -/
def idleKeeper : Keeper where
  IndexBalances := fun _ => .ok ⟨0, [⟨"weth", 15000000000000000000⟩, ⟨"uatom", 7⟩]⟩
  AllMedianPrices := [⟨⟨"USDT", Dec.ofInt 1⟩, 10⟩, ⟨⟨"ETH", Dec.ofInt 2000⟩, 10⟩]
  GetTokenSettings := fun denom =>
    if denom = "uusdt" then .ok ⟨"USDT", 6⟩
    else if denom = "weth" then .ok ⟨"ETH", 18⟩
    else .error (.keeper "token not registered")

/-- The keepers of the scenario of an exponent without factor followed by a missing price:
`uusdt` is registered with exponent 19 and has a price and a balance entry, `uatom` is
registered and the oracle has no median for `ATOM`. -/
def farGapKeeper : Keeper where
  IndexBalances := fun _ => .ok missBalances
  AllMedianPrices := [⟨⟨"USDT", Dec.ofInt 1⟩, 10⟩]
  GetTokenSettings := fun denom =>
    if denom = "uusdt" then .ok ⟨"USDT", 19⟩
    else if denom = "uatom" then .ok ⟨"ATOM", 6⟩
    else .error (.keeper "token not registered")

/-- An index of exponent 19 with the accepted asset `uusdt`. -/
def farIndex : Index := ⟨"me/FAR", 19, [⟨"uusdt"⟩]⟩

/-- The integer `2^255`, within the 256 bits of an `sdkmath.Int`. -/
def twoPow255 : Int := ((2 ^ 255 : Nat) : Int)

/-- The integer `2^300`, within the 315 bits of a decimal. -/
def twoPow300 : Int := ((2 ^ 300 : Nat) : Int)

/-! ## `latestPrice` -/

theorem latestPriceStep_foldl_spec (symbolDenom : String) (prices : List Price) :
    ∀ acc : Price,
      (prices.foldl (latestPriceStep symbolDenom) acc = acc ∨
        (prices.foldl (latestPriceStep symbolDenom) acc ∈ prices ∧
          (prices.foldl (latestPriceStep symbolDenom) acc).ExchangeRateTuple.Denom
            = symbolDenom)) ∧
      acc.BlockNum ≤ (prices.foldl (latestPriceStep symbolDenom) acc).BlockNum ∧
      ∀ p ∈ prices, p.ExchangeRateTuple.Denom = symbolDenom →
        p.BlockNum ≤ (prices.foldl (latestPriceStep symbolDenom) acc).BlockNum := by
  induction prices with
  | nil => intro acc; simp
  | cons q qs ih =>
    intro acc
    simp only [List.foldl_cons]
    obtain ⟨h1, h2, h3⟩ := ih (latestPriceStep symbolDenom acc q)
    by_cases hq : q.ExchangeRateTuple.Denom = symbolDenom ∧ q.BlockNum > acc.BlockNum
    · have hstep : latestPriceStep symbolDenom acc q = q := by
        simp [latestPriceStep, hq]
      rw [hstep] at h1 h2 h3 ⊢
      refine ⟨Or.inr ?_, by omega, ?_⟩
      · rcases h1 with h1 | ⟨h1, h1d⟩
        · rw [h1]; exact ⟨List.mem_cons_self _ _, hq.1⟩
        · exact ⟨List.mem_cons_of_mem _ h1, h1d⟩
      · intro p hp hpd
        rcases List.mem_cons.mp hp with rfl | hp
        · exact h2
        · exact h3 p hp hpd
    · have hstep : latestPriceStep symbolDenom acc q = acc := by
        simp [latestPriceStep, hq]
      rw [hstep] at h1 h2 h3 ⊢
      refine ⟨?_, h2, ?_⟩
      · rcases h1 with h1 | ⟨h1, h1d⟩
        · exact Or.inl h1
        · exact Or.inr ⟨List.mem_cons_of_mem _ h1, h1d⟩
      · intro p hp hpd
        rcases List.mem_cons.mp hp with rfl | hp
        · have : ¬ p.BlockNum > acc.BlockNum := fun h => hq ⟨hpd, h⟩
          omega
        · exact h3 p hp hpd

theorem latestPriceStep_foldl_filter (symbolDenom : String) (prices : List Price) :
    ∀ acc : Price,
      prices.foldl (latestPriceStep symbolDenom) acc =
        (prices.filter (fun p => decide (p.ExchangeRateTuple.Denom = symbolDenom))).foldl
          (latestPriceStep symbolDenom) acc := by
  induction prices with
  | nil => intro acc; rfl
  | cons q qs ih =>
    intro acc
    by_cases hq : q.ExchangeRateTuple.Denom = symbolDenom
    · simp only [List.foldl_cons, List.filter_cons, hq, decide_True, if_true]
      exact ih _
    · have hstep : latestPriceStep symbolDenom acc q = acc := by
        simp [latestPriceStep, hq]
      simp only [List.foldl_cons, List.filter_cons, hq, decide_False, hstep]
      simpa using ih acc

/-- C4. Freshness selection: when the list holds an observation for the symbol with a
positive block height, `latestPrice` succeeds with the exchange rate of an observation for
that symbol whose block height is at least that of every observation for the symbol, and
the result is the one computed from the observations of that symbol alone. -/
theorem latestPrice_freshest (prices : List Price) (symbolDenom : String)
    (h : ∃ p ∈ prices, p.ExchangeRateTuple.Denom = symbolDenom ∧ 0 < p.BlockNum) :
    (∃ q ∈ prices, q.ExchangeRateTuple.Denom = symbolDenom ∧
        latestPrice prices symbolDenom = .ok q.ExchangeRateTuple.ExchangeRate ∧
        ∀ r ∈ prices, r.ExchangeRateTuple.Denom = symbolDenom → r.BlockNum ≤ q.BlockNum) ∧
    latestPrice prices symbolDenom =
      latestPrice (prices.filter (fun p => decide (p.ExchangeRateTuple.Denom = symbolDenom)))
        symbolDenom := by
  obtain ⟨p, hp, hpd, hpos⟩ := h
  obtain ⟨h1, _, h3⟩ := latestPriceStep_foldl_spec symbolDenom prices emptyPrice
  have hge := h3 p hp hpd
  have hne : (prices.foldl (latestPriceStep symbolDenom) emptyPrice).BlockNum ≠ 0 := by omega
  refine ⟨?_, ?_⟩
  · rcases h1 with h1 | ⟨hmem, hden⟩
    · rw [h1] at hne; exact absurd rfl hne
    · refine ⟨_, hmem, hden, ?_, h3⟩
      simp [latestPrice, hne]
  · unfold latestPrice
    rw [← latestPriceStep_foldl_filter]

/-- Witness of C4: observations at heights 10 and 20 resolve to the height-20 value, in
both orders, whatever other symbols are listed. -/
theorem latestPrice_freshest_witness :
    latestPrice [⟨⟨"ATOM", ⟨7⟩⟩, 10⟩, ⟨⟨"UMEE", ⟨1⟩⟩, 30⟩, ⟨⟨"ATOM", ⟨9⟩⟩, 20⟩] "ATOM" = .ok ⟨9⟩ ∧
    latestPrice [⟨⟨"ATOM", ⟨9⟩⟩, 20⟩, ⟨⟨"UMEE", ⟨1⟩⟩, 30⟩, ⟨⟨"ATOM", ⟨7⟩⟩, 10⟩] "ATOM" = .ok ⟨9⟩ ∧
    ((∃ q ∈ [(⟨⟨"ATOM", ⟨7⟩⟩, 10⟩ : Price), ⟨⟨"UMEE", ⟨1⟩⟩, 30⟩, ⟨⟨"ATOM", ⟨9⟩⟩, 20⟩],
        q.ExchangeRateTuple.Denom = "ATOM" ∧
        latestPrice [⟨⟨"ATOM", ⟨7⟩⟩, 10⟩, ⟨⟨"UMEE", ⟨1⟩⟩, 30⟩, ⟨⟨"ATOM", ⟨9⟩⟩, 20⟩] "ATOM"
          = .ok q.ExchangeRateTuple.ExchangeRate ∧
        ∀ r ∈ [(⟨⟨"ATOM", ⟨7⟩⟩, 10⟩ : Price), ⟨⟨"UMEE", ⟨1⟩⟩, 30⟩, ⟨⟨"ATOM", ⟨9⟩⟩, 20⟩],
          r.ExchangeRateTuple.Denom = "ATOM" → r.BlockNum ≤ q.BlockNum) ∧
      latestPrice [⟨⟨"ATOM", ⟨7⟩⟩, 10⟩, ⟨⟨"UMEE", ⟨1⟩⟩, 30⟩, ⟨⟨"ATOM", ⟨9⟩⟩, 20⟩] "ATOM" =
        latestPrice
          (([⟨⟨"ATOM", ⟨7⟩⟩, 10⟩, ⟨⟨"UMEE", ⟨1⟩⟩, 30⟩, ⟨⟨"ATOM", ⟨9⟩⟩, 20⟩] : List Price).filter
            (fun p => decide (p.ExchangeRateTuple.Denom = "ATOM"))) "ATOM") :=
  ⟨rfl, rfl,
    latestPrice_freshest [⟨⟨"ATOM", ⟨7⟩⟩, 10⟩, ⟨⟨"UMEE", ⟨1⟩⟩, 30⟩, ⟨⟨"ATOM", ⟨9⟩⟩, 20⟩] "ATOM"
      ⟨⟨⟨"ATOM", ⟨7⟩⟩, 10⟩, by decide, by decide, by decide⟩⟩

/-- C5, as amended. `latestPrice` returns an error if and only if the list holds no
observation for the symbol with a positive block height: block number zero is the mark of
"not found", so an observation recorded at height zero does not make the lookup succeed. -/
theorem latestPrice_error_iff (prices : List Price) (symbolDenom : String) :
    (∃ err, latestPrice prices symbolDenom = .error err) ↔
      ∀ p ∈ prices, p.ExchangeRateTuple.Denom = symbolDenom → p.BlockNum = 0 := by
  obtain ⟨h1, _, h3⟩ := latestPriceStep_foldl_spec symbolDenom prices emptyPrice
  constructor
  · rintro ⟨err, herr⟩ p hp hpd
    have hzero : (prices.foldl (latestPriceStep symbolDenom) emptyPrice).BlockNum = 0 := by
      by_contra hne
      simp [latestPrice, hne] at herr
    have := h3 p hp hpd
    omega
  · intro hall
    have hzero : (prices.foldl (latestPriceStep symbolDenom) emptyPrice).BlockNum = 0 := by
      rcases h1 with h1 | ⟨hmem, hden⟩
      · rw [h1]; rfl
      · exact hall _ hmem hden
    exact ⟨.priceNotFound symbolDenom, by simp [latestPrice, hzero]⟩

/-- C5, counterexample. The list holds an observation for `ATOM`, recorded at block number
zero, and `latestPrice` returns the error all the same: "an error if and only if there is
no observation for the symbol" fails. -/
theorem latestPrice_error_with_observation :
    ¬ ((∃ err, latestPrice [⟨⟨"ATOM", ⟨7000000000000000000⟩⟩, 0⟩] "ATOM" = .error err) ↔
        ¬ ∃ p ∈ [(⟨⟨"ATOM", ⟨7000000000000000000⟩⟩, 0⟩ : Price)],
            p.ExchangeRateTuple.Denom = "ATOM") := by
  intro h
  exact h.mp ⟨.priceNotFound "ATOM", rfl⟩ ⟨_, List.mem_cons_self _ _, rfl⟩

/-! ## The loops of `Prices` -/

theorem Dec.checked_eq_some {x : Int} {d : Dec} (h : Dec.checked x = some d) : d.i = x := by
  unfold Dec.checked at h
  split at h
  · cases h; rfl
  · cases h

theorem Dec.Add_eq_some {a b d : Dec} (h : a.Add b = some d) : d.i = a.i + b.i :=
  Dec.checked_eq_some h

theorem sumUnits_nil : sumUnits [] = 0 := rfl

theorem sumUnits_cons (d : Dec) (ds : List Dec) : sumUnits (d :: ds) = d.i + sumUnits ds := by
  simp [sumUnits]

/-- The first loop over a list of assets in two parts is the loop over the first part
followed, when it goes through, by the loop over the second part. -/
theorem valuationLoop_append (k : Keeper) (supply : IndexBalances) (allPrices : List Price)
    (pre post : List AcceptedAsset) :
    ∀ (indexPrices : IndexPrices) (total : Dec),
      valuationLoop k supply allPrices (pre ++ post) indexPrices total =
        match valuationLoop k supply allPrices pre indexPrices total with
        | .next (indexPrices1, total1) => valuationLoop k supply allPrices post indexPrices1 total1
        | .fail indexPrices1 err => .fail indexPrices1 err
        | .panic => .panic := by
  induction pre with
  | nil => intro indexPrices total; simp [valuationLoop]
  | cons aa rest ih =>
    intro indexPrices total
    simp only [List.cons_append, valuationLoop]
    split
    · rfl
    · split
      · rfl
      · split
        · split
          · rfl
          · exact ih _ _
        · split
          · rfl
          · split
            · rfl
            · rfl
            · split
              · rfl
              · exact ih _ _

theorem recordedEntry_eq_some {k : Keeper} {aa : AcceptedAsset} {entry : AssetPrice}
    (h : recordedEntry k aa = some entry) :
    ∃ tokenSettings,
      k.GetTokenSettings aa.Denom = .ok tokenSettings ∧
      latestPrice k.AllMedianPrices tokenSettings.SymbolDenom = .ok entry.Price ∧
      entry.BaseDenom = aa.Denom ∧ entry.SymbolDenom = tokenSettings.SymbolDenom ∧
      entry.Exponent = tokenSettings.Exponent ∧
      entry.SwapRate = none ∧ entry.RedeemRate = none := by
  unfold recordedEntry at h
  cases hts : k.GetTokenSettings aa.Denom with
  | error err => simp [hts] at h
  | ok tokenSettings =>
    cases hlp : latestPrice k.AllMedianPrices tokenSettings.SymbolDenom with
    | error err => simp [hts, hlp] at h
    | ok assetPrice =>
      simp only [hts, hlp, Option.some.injEq] at h
      subst h
      exact ⟨tokenSettings, rfl, hlp, rfl, rfl, rfl, rfl, rfl⟩

/-- What the first loop has done when it goes through: one entry recorded per asset, in
order, and the total increased by the prices (no meToken minted) or by the values of the
reserves (otherwise). -/
theorem valuationLoop_next (k : Keeper) (supply : IndexBalances) (l : List AcceptedAsset) :
    ∀ (indexPrices : IndexPrices) (total : Dec) (indexPrices1 : IndexPrices) (total1 : Dec),
      valuationLoop k supply k.AllMedianPrices l indexPrices total
        = .next (indexPrices1, total1) →
      ∃ entries : List AssetPrice,
        l.map (recordedEntry k) = entries.map some ∧
        indexPrices1 = { indexPrices with Assets := indexPrices.Assets ++ entries } ∧
        (supply.MetokenSupply = 0 →
          total1.i = total.i + sumUnits (entries.map (fun entry => entry.Price))) ∧
        (supply.MetokenSupply ≠ 0 →
          ∃ values : List Dec,
            l.map (reserveValue k supply) = values.map some ∧
            total1.i = total.i + sumUnits values) := by
  induction l with
  | nil =>
    intro indexPrices total indexPrices1 total1 h
    simp only [valuationLoop, Step.next.injEq, Prod.mk.injEq] at h
    obtain ⟨rfl, rfl⟩ := h
    exact ⟨[], rfl, by simp, fun _ => by simp [sumUnits], fun _ => ⟨[], rfl, by simp [sumUnits]⟩⟩
  | cons aa rest ih =>
    intro indexPrices total indexPrices1 total1 h
    simp only [valuationLoop] at h
    cases hts : k.GetTokenSettings aa.Denom with
    | error err => simp [hts] at h
    | ok tokenSettings =>
      cases hlp : latestPrice k.AllMedianPrices tokenSettings.SymbolDenom with
      | error err => simp [hts, hlp] at h
      | ok assetPrice =>
        simp only [hts, hlp] at h
        obtain ⟨entry, hE⟩ : ∃ entry : AssetPrice, entry =
            { BaseDenom := aa.Denom
              SymbolDenom := tokenSettings.SymbolDenom
              Price := assetPrice
              Exponent := tokenSettings.Exponent
              SwapRate := none
              RedeemRate := none } := ⟨_, rfl⟩
        have hentry : recordedEntry k aa = some entry := by
          simp [recordedEntry, hts, hlp, hE]
        have hprice : entry.Price = assetPrice := by rw [hE]
        have hexp : entry.Exponent = tokenSettings.Exponent := by rw [hE]
        rw [← hE] at h
        by_cases h0 : supply.MetokenSupply = 0
        · simp only [h0, if_true] at h
          cases hadd : total.Add assetPrice with
          | none => simp [hadd] at h
          | some total2 =>
            simp only [hadd] at h
            obtain ⟨entries, hmap, hip, hsum, _⟩ := ih _ _ _ _ h
            refine ⟨entry :: entries, ?_, ?_, ?_, fun hne => absurd h0 hne⟩
            · simp only [List.map_cons, hentry, hmap]
            · rw [hip]; simp [IndexPrices.SetPrice]
            · intro _
              rw [hsum h0, Dec.Add_eq_some hadd]
              simp only [List.map_cons, sumUnits_cons, hprice]
              omega
        · simp only [h0, if_false] at h
          rcases hab : supply.AssetBalance aa.Denom with ⟨balance, i⟩
          simp only [hab] at h
          by_cases hi : i < 0
          · simp [hi] at h
          · simp only [hi, if_false] at h
            cases hval : valueInUSD balance.AvailableSupply assetPrice tokenSettings.Exponent with
            | panic => simp [hval] at h
            | error err => simp [hval] at h
            | ok assetUSDValue =>
              simp only [hval] at h
              cases hadd : total.Add assetUSDValue with
              | none => simp [hadd] at h
              | some total2 =>
                simp only [hadd] at h
                obtain ⟨entries, hmap, hip, _, hsum⟩ := ih _ _ _ _ h
                obtain ⟨values, hvmap, hvsum⟩ := hsum h0
                refine ⟨entry :: entries, ?_, ?_, fun h => absurd h h0,
                  fun _ => ⟨assetUSDValue :: values, ?_, ?_⟩⟩
                · simp only [List.map_cons, hentry, hmap]
                · rw [hip]; simp [IndexPrices.SetPrice]
                · have hrv : reserveValue k supply aa = some assetUSDValue := by
                    simp [reserveValue, hentry, hab, hi, hval, hprice, hexp]
                  simp only [List.map_cons, hrv, hvmap]
                · rw [hvsum, Dec.Add_eq_some hadd, sumUnits_cons]
                  omega

theorem forall₂_of_map_eq_map_some {α β : Type} (f : α → Option β) :
    ∀ (l : List α) (es : List β), l.map f = es.map some →
      List.Forall₂ (fun a e => f a = some e) l es := by
  intro l
  induction l with
  | nil =>
    intro es h
    cases es with
    | nil => exact List.Forall₂.nil
    | cons e es => simp at h
  | cons a l ih =>
    intro es h
    cases es with
    | nil => simp at h
    | cons e es =>
      simp only [List.map_cons, List.cons.injEq] at h
      exact List.Forall₂.cons h.1 (ih es h.2)

/-- What the part of `Prices` before the second loop has computed when it goes through:
the balances were found, one entry per accepted asset is recorded in order, and the index
price is the quotient of the branch taken. -/
theorem valuation_next {k : Keeper} {index : Index} {indexPrices : IndexPrices}
    (h : valuation k index = .next indexPrices) :
    ∃ (supply : IndexBalances) (entries : List AssetPrice) (total price : Dec),
      k.IndexBalances index.Denom = .ok supply ∧
      index.AcceptedAssets.map (recordedEntry k) = entries.map some ∧
      indexPrices =
        { Denom := index.Denom, Price := some price, Exponent := index.Exponent,
          Assets := entries } ∧
      (supply.MetokenSupply = 0 →
        total.i = sumUnits (entries.map (fun entry => entry.Price)) ∧
        total.QuoInt (index.AcceptedAssets.length : Int) = some price) ∧
      (supply.MetokenSupply ≠ 0 →
        ∃ values : List Dec,
          index.AcceptedAssets.map (reserveValue k supply) = values.map some ∧
          total.i = sumUnits values ∧
          priceInUSD supply.MetokenSupply total index.Exponent = .ok price) := by
  unfold valuation at h
  cases hs : k.IndexBalances index.Denom with
  | error err => simp [hs] at h
  | ok supply =>
    simp only [hs] at h
    cases hloop : valuationLoop k supply k.AllMedianPrices index.AcceptedAssets
        (EmptyIndexPrices index) Dec.ZeroDec with
    | panic => simp [hloop] at h
    | fail indexPrices1 err => simp [hloop] at h
    | next st =>
      obtain ⟨indexPrices1, total⟩ := st
      simp only [hloop] at h
      obtain ⟨entries, hmap, hip, hzero, hnonzero⟩ := valuationLoop_next k supply _ _ _ _ _ hloop
      have hip1 : indexPrices1 =
          { Denom := index.Denom, Price := none, Exponent := index.Exponent,
            Assets := entries } := by
        rw [hip]; simp [EmptyIndexPrices]
      unfold indexPriceStage at h
      by_cases h0 : supply.MetokenSupply = 0
      · simp only [h0, if_true] at h
        cases hq : total.QuoInt (index.AcceptedAssets.length : Int) with
        | none => simp [hq] at h
        | some price =>
          simp only [hq, Step.next.injEq] at h
          refine ⟨supply, entries, total, price, rfl, hmap, ?_, fun _ => ⟨?_, hq⟩,
            fun hne => absurd h0 hne⟩
          · rw [← h, hip1]
          · have := hzero h0
            simpa [Dec.ZeroDec] using this
      · simp only [h0, if_false] at h
        cases hp : priceInUSD supply.MetokenSupply total index.Exponent with
        | panic => simp [hp] at h
        | error err => simp [hp] at h
        | ok price =>
          simp only [hp, Step.next.injEq] at h
          obtain ⟨values, hvmap, hvsum⟩ := hnonzero h0
          refine ⟨supply, entries, total, price, rfl, hmap, ?_, fun h => absurd h h0,
            fun _ => ⟨values, hvmap, ?_, hp⟩⟩
          · rw [← h, hip1]
          · simpa [Dec.ZeroDec] using hvsum

/-- What the second loop has done when it goes through: every entry got both rates, each
derived from the index price, and nothing else of the entry changed. -/
theorem fillRates_done (price : Dec) (exponent : Nat) :
    ∀ (assets filled : List AssetPrice), fillRates price exponent assets = .done filled →
      List.Forall₂
        (fun before after =>
          ∃ swapRate redeemRate,
            Rate before.Price price before.Exponent exponent = .ok swapRate ∧
            Rate price before.Price exponent before.Exponent = .ok redeemRate ∧
            after = { before with SwapRate := some swapRate, RedeemRate := some redeemRate })
        assets filled := by
  intro assets
  induction assets with
  | nil =>
    intro filled h
    simp only [fillRates, RateFill.done.injEq] at h
    subst h
    exact List.Forall₂.nil
  | cons asset rest ih =>
    intro filled h
    simp only [fillRates] at h
    cases hswap : Rate asset.Price price asset.Exponent exponent with
    | panic => simp [hswap] at h
    | error err => simp [hswap] at h
    | ok swapRate =>
      cases hredeem : Rate price asset.Price exponent asset.Exponent with
      | panic => simp [hswap, hredeem] at h
      | error err => simp [hswap, hredeem] at h
      | ok redeemRate =>
        simp only [hswap, hredeem] at h
        cases hrest : fillRates price exponent rest with
        | panic => simp [hrest] at h
        | stopped assets1 err => simp [hrest] at h
        | done assets1 =>
          simp only [hrest, RateFill.done.injEq] at h
          subst h
          exact List.Forall₂.cons ⟨swapRate, redeemRate, hswap, hredeem, rfl⟩ (ih _ hrest)

/-- A successful `Prices` is a successful valuation followed by a second loop that goes
through all entries. -/
theorem Prices_ok {k : Keeper} {index : Index} {indexPrices : IndexPrices}
    (h : Prices k index = .ok indexPrices) :
    ∃ (valued : IndexPrices) (price : Dec) (assets : List AssetPrice),
      valuation k index = .next valued ∧ valued.Price = some price ∧
      fillRates price valued.Exponent valued.Assets = .done assets ∧
      indexPrices = { valued with Assets := assets } := by
  unfold Prices at h
  cases hv : valuation k index with
  | panic => simp [hv] at h
  | fail indexPrices1 err => simp [hv] at h
  | next valued =>
    simp only [hv] at h
    unfold rateStage at h
    cases hp : valued.Price with
    | none => simp [hp] at h
    | some price =>
      simp only [hp] at h
      cases hf : fillRates price valued.Exponent valued.Assets with
      | panic => simp [hf] at h
      | stopped assets err => simp [hf] at h
      | done assets =>
        simp only [hf, Ret.ok.injEq] at h
        exact ⟨valued, price, assets, rfl, hp, hf, by rw [hp]; exact h.symm⟩

theorem map_resolvedPrice_of_entries {k : Keeper} {l : List AcceptedAsset}
    {entries : List AssetPrice} (h : l.map (recordedEntry k) = entries.map some) :
    l.map (resolvedPrice k) = (entries.map (fun entry => entry.Price)).map some := by
  have : l.map (resolvedPrice k)
      = (l.map (recordedEntry k)).map (Option.map (fun entry => entry.Price)) := by
    simp [resolvedPrice, List.map_map, Function.comp_def]
  rw [this, h]
  simp [List.map_map, Function.comp_def]

/-! ## The index price -/

/-- C1. Zero-supply mean: when no meToken is minted and `Prices` succeeds, every accepted
asset has a resolved price and the index price is the sum of these prices divided by the
number of accepted assets, the division being `QuoInt` (the integer quotient of the sum,
in units of `10^-18`, by the count, truncated towards zero). -/
theorem prices_zero_supply_mean (k : Keeper) (index : Index) (supply : IndexBalances)
    (indexPrices : IndexPrices)
    (hs : k.IndexBalances index.Denom = .ok supply) (h0 : supply.MetokenSupply = 0)
    (hok : Prices k index = .ok indexPrices) :
    ∃ prices : List Dec,
      index.AcceptedAssets.map (resolvedPrice k) = prices.map some ∧
      indexPrices.Price = Dec.QuoInt ⟨sumUnits prices⟩ (index.AcceptedAssets.length : Int) ∧
      indexPrices.Price
        = some ⟨Int.tdiv (sumUnits prices) (index.AcceptedAssets.length : Int)⟩ := by
  obtain ⟨valued, price, assets, hv, hprice, _, hip⟩ := Prices_ok hok
  obtain ⟨supply1, entries, total, price1, hs1, hmap, hvalued, hzero, _⟩ := valuation_next hv
  rw [hs] at hs1
  cases hs1
  obtain ⟨htotal, hquo⟩ := hzero h0
  have hp : indexPrices.Price = some price1 := by rw [hip, hvalued]
  have htot : total = ⟨sumUnits (entries.map (fun entry => entry.Price))⟩ := by
    cases total; simp only at htotal; rw [htotal]
  rw [htot] at hquo
  refine ⟨entries.map (fun entry => entry.Price), map_resolvedPrice_of_entries hmap, ?_, ?_⟩
  · rw [hp, hquo]
  · rw [hp, ← hquo]
    unfold Dec.QuoInt at hquo ⊢
    split
    · rename_i hz; simp [hz] at hquo
    · rfl

/-- Witness of C1: two assets with prices 1.00 and 2000.00 and no meToken minted give the
index price 1000.50. -/
theorem prices_zero_supply_mean_witness :
    Prices meanKeeper meanIndex = .ok meanResult ∧
    meanResult.Price = some ⟨1000500000000000000000⟩ ∧
    ∃ prices : List Dec,
      meanIndex.AcceptedAssets.map (resolvedPrice meanKeeper) = prices.map some ∧
      meanResult.Price = Dec.QuoInt ⟨sumUnits prices⟩ (meanIndex.AcceptedAssets.length : Int) ∧
      meanResult.Price
        = some ⟨Int.tdiv (sumUnits prices) (meanIndex.AcceptedAssets.length : Int)⟩ :=
  ⟨by decide, rfl,
    prices_zero_supply_mean meanKeeper meanIndex ⟨0, []⟩ meanResult rfl rfl (by decide)⟩

/-! ### Rounding of a quotient -/

theorem Dec.chopPrecisionAndRoundNat_bounds (d : Nat) :
    Dec.chopPrecisionAndRoundNat d * 10 ^ 18 ≤ d + 5 * 10 ^ 17 ∧
    d ≤ Dec.chopPrecisionAndRoundNat d * 10 ^ 18 + 5 * 10 ^ 17 := by
  unfold Dec.chopPrecisionAndRoundNat
  simp only [Dec.Precision]
  norm_num
  split_ifs <;> omega

/-- Rounding to 18 decimals moves a number by at most half a unit. -/
theorem Dec.chopPrecisionAndRound_bounds (x : Int) :
    Dec.chopPrecisionAndRound x * 10 ^ 18 - x ≤ 5 * 10 ^ 17 ∧
    -(5 * 10 ^ 17) ≤ Dec.chopPrecisionAndRound x * 10 ^ 18 - x := by
  obtain ⟨h1, h2⟩ := Dec.chopPrecisionAndRoundNat_bounds x.natAbs
  unfold Dec.chopPrecisionAndRound
  norm_num at h1 h2 ⊢
  split_ifs with hneg <;> omega

/-- The truncated quotient by a positive divisor is off by less than one divisor. -/
theorem tdiv_mul_sub_bounds (n d : Int) (hd : 0 < d) :
    Int.tdiv n d * d - n < d ∧ -d < Int.tdiv n d * d - n := by
  have hdecomp := Int.tdiv_add_tmod n d
  have hcomm : d * Int.tdiv n d = Int.tdiv n d * d := Int.mul_comm _ _
  have hlt := Int.tmod_lt_of_pos n hd
  have hgt : -d < Int.tmod n d := by
    rcases Int.le_total 0 n with hn | hn
    · have := Int.tmod_nonneg d hn
      omega
    · have h1 := Int.tmod_lt_of_pos (-n) hd
      have h2 := Int.tdiv_add_tmod (-n) d
      rw [Int.neg_tdiv, Int.mul_neg] at h2
      omega
  constructor <;> omega

/-- The quotient of two decimals by a positive divisor, multiplied back by the divisor, is
off the dividend by at most one unit in the last place times the divisor. -/
theorem Dec.Quo_mul_bound {a b q : Dec} (hb : 0 < b.i) (h : a.Quo b = some q) :
    |q.i * b.i - a.i * 10 ^ 18| ≤ b.i := by
  unfold Dec.Quo at h
  have hne : b.i ≠ 0 := by omega
  simp only [hne, if_false] at h
  have hq := Dec.checked_eq_some h
  have hpr : Dec.precisionReuse = 10 ^ 18 := rfl
  rw [hpr] at hq
  obtain ⟨hc1, hc2⟩ := Dec.chopPrecisionAndRound_bounds (Int.tdiv (a.i * 10 ^ 18 * 10 ^ 18) b.i)
  obtain ⟨ht1, ht2⟩ := tdiv_mul_sub_bounds (a.i * 10 ^ 18 * 10 ^ 18) b.i hb
  rw [← hq] at hc1 hc2
  have hm1 := mul_le_mul_of_nonneg_right hc1 (le_of_lt hb)
  have hm2 := mul_le_mul_of_nonneg_right hc2 (le_of_lt hb)
  rw [abs_le]
  constructor <;> nlinarith

theorem ExponentFactor_usd {exponent : Nat} {exponentFactor : Dec}
    (h : ExponentFactor exponent usdExponent = .ok exponentFactor) :
    exponent ≤ 18 ∧ exponentFactor.i = 10 ^ (18 - exponent) := by
  unfold ExponentFactor usdExponent at h
  simp only at h
  split at h
  · rename_i hrange
    simp only [Except.ok.injEq] at h
    subst h
    have hle : exponent ≤ 18 := by omega
    refine ⟨hle, ?_⟩
    have : ((0 : Nat) : Int) - (exponent : Int) + 18 = ((18 - exponent : Nat) : Int) := by omega
    simp only [this, Int.toNat_ofNat]
  · cases h

theorem priceInUSD_ok {amount : Int} {totalValue price : Dec} {assetExponent : Nat}
    (h : priceInUSD amount totalValue assetExponent = .ok price) :
    ∃ exponentFactor divisor : Dec,
      ExponentFactor assetExponent usdExponent = .ok exponentFactor ∧
      exponentFactor.MulInt amount = some divisor ∧
      totalValue.Quo divisor = some price := by
  unfold priceInUSD at h
  cases hf : ExponentFactor assetExponent usdExponent with
  | error err => simp [hf] at h
  | ok exponentFactor =>
    simp only [hf] at h
    cases hm : exponentFactor.MulInt amount with
    | none => simp [hm] at h
    | some divisor =>
      simp only [hm] at h
      cases hq : totalValue.Quo divisor with
      | none => simp [hq] at h
      | some price1 =>
        simp only [hq, Result.ok.injEq] at h
        subst h
        exact ⟨exponentFactor, divisor, rfl, hm, hq⟩

/-- C2. Nonzero-supply value: when the supply `S` of meTokens is positive and `Prices`
succeeds, every accepted asset has a reserve value `valueInUSD(balance, price, exponent)`
and the index price is the quotient `Quo` of the sum of these values by the divisor
`10^(0 - indexExponent) * S` (the exponent factor is `10^(18 - indexExponent)` units of
`10^-18`, and its product with `S` is exact).  Hence the index price times the divisor is
off the total reserve value by at most one unit in the last place of the price times the
divisor: the rounding of the one division. -/
theorem prices_nonzero_supply_value (k : Keeper) (index : Index) (supply : IndexBalances)
    (indexPrices : IndexPrices)
    (hs : k.IndexBalances index.Denom = .ok supply) (hpos : 0 < supply.MetokenSupply)
    (hok : Prices k index = .ok indexPrices) :
    ∃ (values : List Dec) (exponentFactor divisor price : Dec),
      index.AcceptedAssets.map (reserveValue k supply) = values.map some ∧
      ExponentFactor index.Exponent usdExponent = .ok exponentFactor ∧
      index.Exponent ≤ 18 ∧ exponentFactor.i = 10 ^ (18 - index.Exponent) ∧
      exponentFactor.MulInt supply.MetokenSupply = some divisor ∧
      divisor.i = exponentFactor.i * supply.MetokenSupply ∧
      Dec.Quo ⟨sumUnits values⟩ divisor = some price ∧
      indexPrices.Price = some price ∧
      |price.i * divisor.i - sumUnits values * 10 ^ 18| ≤ divisor.i := by
  obtain ⟨valued, price, assets, hv, hprice, _, hip⟩ := Prices_ok hok
  obtain ⟨supply1, entries, total, price1, hs1, hmap, hvalued, _, hnonzero⟩ := valuation_next hv
  rw [hs] at hs1
  cases hs1
  obtain ⟨values, hvmap, htotal, hp⟩ := hnonzero (by omega)
  obtain ⟨exponentFactor, divisor, hf, hm, hq⟩ := priceInUSD_ok hp
  obtain ⟨hle, hfi⟩ := ExponentFactor_usd hf
  have htot : total = ⟨sumUnits values⟩ := by
    cases total; simp only at htotal; rw [htotal]
  rw [htot] at hq
  have hdiv : divisor.i = exponentFactor.i * supply.MetokenSupply := Dec.checked_eq_some hm
  have hfpos : 0 < exponentFactor.i := by rw [hfi]; positivity
  have hdpos : 0 < divisor.i := by rw [hdiv]; exact Int.mul_pos hfpos hpos
  refine ⟨values, exponentFactor, divisor, price1, hvmap, hf, hle, hfi, hm, hdiv, hq, ?_,
    Dec.Quo_mul_bound hdpos hq⟩
  rw [hip, hvalued]

/-- Witness of C2: 100 meTokens at exponent 6 (`S = 100000000`) and reserves worth 50000
give the index price 500. -/
theorem prices_nonzero_supply_value_witness :
    Prices valueKeeper meanIndex = .ok valueResult ∧
    valueResult.Price = some (Dec.ofInt 500) ∧
    meanIndex.AcceptedAssets.map (reserveValue valueKeeper valueBalances)
      = [some (Dec.ofInt 20000), some (Dec.ofInt 30000)] ∧
    ∃ (values : List Dec) (exponentFactor divisor price : Dec),
      meanIndex.AcceptedAssets.map (reserveValue valueKeeper valueBalances)
        = values.map some ∧
      ExponentFactor meanIndex.Exponent usdExponent = .ok exponentFactor ∧
      meanIndex.Exponent ≤ 18 ∧ exponentFactor.i = 10 ^ (18 - meanIndex.Exponent) ∧
      exponentFactor.MulInt valueBalances.MetokenSupply = some divisor ∧
      divisor.i = exponentFactor.i * valueBalances.MetokenSupply ∧
      Dec.Quo ⟨sumUnits values⟩ divisor = some price ∧
      valueResult.Price = some price ∧
      |price.i * divisor.i - sumUnits values * 10 ^ 18| ≤ divisor.i :=
  ⟨by decide, by decide, by decide,
    prices_nonzero_supply_value valueKeeper meanIndex valueBalances valueResult rfl
      (by decide) (by decide)⟩

/-- C3, as amended. `Prices` has no guard for an empty list of accepted assets: for every
index whose accepted-asset list is empty and whose total supply is zero it returns neither
a valuation nor an error; the count, zero, is handed to `QuoInt` as the divisor and the
call ends in the panic of that division. -/
theorem prices_empty_zero_supply_panics (k : Keeper) (index : Index) (supply : IndexBalances)
    (hs : k.IndexBalances index.Denom = .ok supply) (h0 : supply.MetokenSupply = 0)
    (hempty : index.AcceptedAssets = []) :
    Dec.QuoInt Dec.ZeroDec (index.AcceptedAssets.length : Int) = none ∧
    Prices k index = .panic := by
  constructor
  · simp [Dec.QuoInt, hempty]
  · simp [Prices, valuation, hs, hempty, valuationLoop, indexPriceStage, h0, Dec.QuoInt]

/-- Witness of C3 as amended: the keepers of the first scenario on an index without
accepted assets. -/
theorem prices_empty_zero_supply_panics_witness :
    Dec.QuoInt Dec.ZeroDec (emptyIndex.AcceptedAssets.length : Int) = none ∧
    Prices meanKeeper emptyIndex = .panic :=
  prices_empty_zero_supply_panics meanKeeper emptyIndex ⟨0, []⟩ rfl rfl rfl

/-- C3, counterexample. On an index without accepted assets and with no meToken minted,
`Prices` does not return an error: it panics. -/
theorem prices_empty_zero_supply_no_error :
    gapKeeper.IndexBalances emptyIndex.Denom = .ok ⟨0, []⟩ ∧
    emptyIndex.AcceptedAssets = [] ∧
    Prices gapKeeper emptyIndex = .panic ∧
    ¬ ∃ indexPrices err, Prices gapKeeper emptyIndex = .fail indexPrices err := by
  refine ⟨rfl, rfl, by decide, ?_⟩
  rintro ⟨indexPrices, err, h⟩
  have hp : Prices gapKeeper emptyIndex = .panic := by decide
  rw [hp] at h
  cases h

/-! ## The value returned with an error -/

/-- What the first loop has done when it stops on an error: the entries of the assets
visited so far are recorded, without rates, and nothing else has changed. -/
theorem valuationLoop_fail (k : Keeper) (supply : IndexBalances) (allPrices : List Price)
    (l : List AcceptedAsset) :
    ∀ (indexPrices : IndexPrices) (total : Dec) (indexPrices1 : IndexPrices) (err : Error),
      valuationLoop k supply allPrices l indexPrices total = .fail indexPrices1 err →
      ∃ (entries : List AssetPrice) (rest : List String),
        indexPrices1 = { indexPrices with Assets := indexPrices.Assets ++ entries } ∧
        l.map (fun aa => aa.Denom) = entries.map (fun entry => entry.BaseDenom) ++ rest ∧
        ∀ entry ∈ entries, entry.SwapRate = none ∧ entry.RedeemRate = none := by
  induction l with
  | nil =>
    intro indexPrices total indexPrices1 err h
    simp [valuationLoop] at h
  | cons aa tail ih =>
    intro indexPrices total indexPrices1 err h
    simp only [valuationLoop] at h
    cases hts : k.GetTokenSettings aa.Denom with
    | error err1 =>
      simp only [hts, Step.fail.injEq] at h
      exact ⟨[], (aa :: tail).map (fun aa => aa.Denom), by simp [← h.1], by simp, by simp⟩
    | ok tokenSettings =>
      cases hlp : latestPrice allPrices tokenSettings.SymbolDenom with
      | error err1 =>
        simp only [hts, hlp, Step.fail.injEq] at h
        exact ⟨[], (aa :: tail).map (fun aa => aa.Denom), by simp [← h.1], by simp, by simp⟩
      | ok assetPrice =>
        simp only [hts, hlp] at h
        obtain ⟨entry, hE⟩ : ∃ entry : AssetPrice, entry =
            { BaseDenom := aa.Denom
              SymbolDenom := tokenSettings.SymbolDenom
              Price := assetPrice
              Exponent := tokenSettings.Exponent
              SwapRate := none
              RedeemRate := none } := ⟨_, rfl⟩
        have hbase : entry.BaseDenom = aa.Denom := by rw [hE]
        have hrates : entry.SwapRate = none ∧ entry.RedeemRate = none := by
          rw [hE]; exact ⟨rfl, rfl⟩
        rw [← hE] at h
        have hone : ∀ ip1 : IndexPrices, ip1 = indexPrices.SetPrice entry →
            ∃ (entries : List AssetPrice) (rest : List String),
              ip1 = { indexPrices with Assets := indexPrices.Assets ++ entries } ∧
              (aa :: tail).map (fun aa => aa.Denom)
                = entries.map (fun entry => entry.BaseDenom) ++ rest ∧
              ∀ entry ∈ entries, entry.SwapRate = none ∧ entry.RedeemRate = none := by
          intro ip1 hip1
          refine ⟨[entry], tail.map (fun aa => aa.Denom), ?_, ?_, ?_⟩
          · rw [hip1]; rfl
          · simp [hbase]
          · intro e he
            rw [List.mem_singleton.mp he]
            exact hrates
        have hmore : ∀ total2 : Dec,
            valuationLoop k supply allPrices tail (indexPrices.SetPrice entry) total2
              = .fail indexPrices1 err →
            ∃ (entries : List AssetPrice) (rest : List String),
              indexPrices1 = { indexPrices with Assets := indexPrices.Assets ++ entries } ∧
              (aa :: tail).map (fun aa => aa.Denom)
                = entries.map (fun entry => entry.BaseDenom) ++ rest ∧
              ∀ entry ∈ entries, entry.SwapRate = none ∧ entry.RedeemRate = none := by
          intro total2 hrec
          obtain ⟨entries, rest, hip, hden, hnone⟩ := ih _ _ _ _ hrec
          refine ⟨entry :: entries, rest, ?_, ?_, ?_⟩
          · rw [hip]; simp [IndexPrices.SetPrice]
          · simp [hbase, hden]
          · intro e he
            rcases List.mem_cons.mp he with rfl | he
            · exact hrates
            · exact hnone e he
        by_cases h0 : supply.MetokenSupply = 0
        · simp only [h0, if_true] at h
          cases hadd : total.Add assetPrice with
          | none => simp [hadd] at h
          | some total2 =>
            simp only [hadd] at h
            exact hmore total2 h
        · simp only [h0, if_false] at h
          rcases hab : supply.AssetBalance aa.Denom with ⟨balance, i⟩
          simp only [hab] at h
          by_cases hi : i < 0
          · simp only [hi, if_true, Step.fail.injEq] at h
            exact hone _ h.1.symm
          · simp only [hi, if_false] at h
            cases hval : valueInUSD balance.AvailableSupply assetPrice tokenSettings.Exponent with
            | panic => simp [hval] at h
            | error err1 =>
              simp only [hval, Step.fail.injEq] at h
              exact hone _ h.1.symm
            | ok assetUSDValue =>
              simp only [hval] at h
              cases hadd : total.Add assetUSDValue with
              | none => simp [hadd] at h
              | some total2 =>
                simp only [hadd] at h
                exact hmore total2 h

theorem entries_of_map_recordedEntry {k : Keeper} :
    ∀ (l : List AcceptedAsset) (entries : List AssetPrice),
      l.map (recordedEntry k) = entries.map some →
      l.map (fun aa => aa.Denom) = entries.map (fun entry => entry.BaseDenom) ∧
      ∀ entry ∈ entries, entry.SwapRate = none ∧ entry.RedeemRate = none := by
  intro l entries h
  have hall := forall₂_of_map_eq_map_some (recordedEntry k) l entries h
  clear h
  induction hall with
  | nil => simp
  | cons hhead _ ih =>
    obtain ⟨_, _, _, hbase, _, _, hswap, hredeem⟩ := recordedEntry_eq_some hhead
    refine ⟨by simp [hbase, ih.1], ?_⟩
    intro e he
    rcases List.mem_cons.mp he with rfl | he
    · exact ⟨hswap, hredeem⟩
    · exact ih.2 e he

/-- What the part of `Prices` before the second loop hands back on an error: no index
price, and the entries, without rates, of the accepted assets visited so far. -/
theorem valuation_fail {k : Keeper} {index : Index} {indexPrices : IndexPrices} {err : Error}
    (h : valuation k index = .fail indexPrices err) :
    indexPrices.Denom = index.Denom ∧ indexPrices.Exponent = index.Exponent ∧
    indexPrices.Price = none ∧
    (∃ rest : List String,
      index.AcceptedAssets.map (fun aa => aa.Denom)
        = indexPrices.Assets.map (fun entry => entry.BaseDenom) ++ rest) ∧
    ∀ entry ∈ indexPrices.Assets, entry.SwapRate = none ∧ entry.RedeemRate = none := by
  unfold valuation at h
  cases hs : k.IndexBalances index.Denom with
  | error err1 =>
    simp only [hs, Step.fail.injEq] at h
    rw [← h.1]
    exact ⟨rfl, rfl, rfl, ⟨index.AcceptedAssets.map (fun aa => aa.Denom),
      by simp [EmptyIndexPrices]⟩, by simp [EmptyIndexPrices]⟩
  | ok supply =>
    simp only [hs] at h
    cases hloop : valuationLoop k supply k.AllMedianPrices index.AcceptedAssets
        (EmptyIndexPrices index) Dec.ZeroDec with
    | panic => simp [hloop] at h
    | fail indexPrices1 err1 =>
      simp only [hloop, Step.fail.injEq] at h
      obtain ⟨entries, rest, hip, hden, hnone⟩ := valuationLoop_fail k supply _ _ _ _ _ _ hloop
      rw [← h.1, hip]
      exact ⟨rfl, rfl, rfl, ⟨rest, by simpa [EmptyIndexPrices] using hden⟩,
        by simpa [EmptyIndexPrices] using hnone⟩
    | next st =>
      obtain ⟨indexPrices1, total⟩ := st
      simp only [hloop] at h
      obtain ⟨entries, hmap, hip, _, _⟩ := valuationLoop_next k supply _ _ _ _ _ hloop
      obtain ⟨hden, hnone⟩ := entries_of_map_recordedEntry _ _ hmap
      unfold indexPriceStage at h
      by_cases h0 : supply.MetokenSupply = 0
      · simp only [h0, if_true] at h
        cases hq : Dec.QuoInt total (index.AcceptedAssets.length : Int) with
        | none => simp [hq] at h
        | some price => simp [hq] at h
      · simp only [h0, if_false] at h
        cases hp : priceInUSD supply.MetokenSupply total index.Exponent with
        | panic => simp [hp] at h
        | ok price => simp [hp] at h
        | error err1 =>
          simp only [hp, Step.fail.injEq] at h
          rw [← h.1, hip]
          exact ⟨rfl, rfl, rfl, ⟨[], by simpa [EmptyIndexPrices] using hden⟩,
            by simpa [EmptyIndexPrices] using hnone⟩

/-- When the second loop stops on an error the entries are those it started from, some of
them with rates, and there is at least one. -/
theorem fillRates_stopped (price : Dec) (exponent : Nat) :
    ∀ (assets stoppedAt : List AssetPrice) (err : Error),
      fillRates price exponent assets = .stopped stoppedAt err →
      stoppedAt.map (fun entry => entry.BaseDenom) = assets.map (fun entry => entry.BaseDenom) ∧
      stoppedAt ≠ [] := by
  intro assets
  induction assets with
  | nil =>
    intro stoppedAt err h
    simp [fillRates] at h
  | cons asset rest ih =>
    intro stoppedAt err h
    simp only [fillRates] at h
    cases hswap : Rate asset.Price price asset.Exponent exponent with
    | panic => simp [hswap] at h
    | error err1 =>
      simp only [hswap, RateFill.stopped.injEq] at h
      rw [← h.1]
      exact ⟨rfl, by simp⟩
    | ok swapRate =>
      cases hredeem : Rate price asset.Price exponent asset.Exponent with
      | panic => simp [hswap, hredeem] at h
      | error err1 =>
        simp only [hswap, hredeem, RateFill.stopped.injEq] at h
        rw [← h.1]
        exact ⟨rfl, by simp⟩
      | ok redeemRate =>
        simp only [hswap, hredeem] at h
        cases hrest : fillRates price exponent rest with
        | panic => simp [hrest] at h
        | done assets1 => simp [hrest] at h
        | stopped assets1 err1 =>
          simp only [hrest, RateFill.stopped.injEq] at h
          rw [← h.1]
          exact ⟨by simp [(ih _ _ hrest).1], by simp⟩

/-- The entries the first loop has recorded when it stops on an error are those of the
accepted assets visited so far, in order. -/
theorem valuationLoop_fail_recorded (k : Keeper) (supply : IndexBalances)
    (l : List AcceptedAsset) :
    ∀ (indexPrices : IndexPrices) (total : Dec) (indexPrices1 : IndexPrices) (err : Error),
      valuationLoop k supply k.AllMedianPrices l indexPrices total = .fail indexPrices1 err →
      ∃ (visited later : List AcceptedAsset) (entries : List AssetPrice),
        l = visited ++ later ∧
        visited.map (recordedEntry k) = entries.map some ∧
        indexPrices1 = { indexPrices with Assets := indexPrices.Assets ++ entries } := by
  induction l with
  | nil =>
    intro indexPrices total indexPrices1 err h
    simp [valuationLoop] at h
  | cons aa tail ih =>
    intro indexPrices total indexPrices1 err h
    simp only [valuationLoop] at h
    cases hts : k.GetTokenSettings aa.Denom with
    | error err1 =>
      simp only [hts, Step.fail.injEq] at h
      exact ⟨[], aa :: tail, [], rfl, rfl, by simp [← h.1]⟩
    | ok tokenSettings =>
      cases hlp : latestPrice k.AllMedianPrices tokenSettings.SymbolDenom with
      | error err1 =>
        simp only [hts, hlp, Step.fail.injEq] at h
        exact ⟨[], aa :: tail, [], rfl, rfl, by simp [← h.1]⟩
      | ok assetPrice =>
        simp only [hts, hlp] at h
        obtain ⟨entry, hE⟩ : ∃ entry : AssetPrice, entry =
            { BaseDenom := aa.Denom
              SymbolDenom := tokenSettings.SymbolDenom
              Price := assetPrice
              Exponent := tokenSettings.Exponent
              SwapRate := none
              RedeemRate := none } := ⟨_, rfl⟩
        have hentry : recordedEntry k aa = some entry := by
          simp [recordedEntry, hts, hlp, hE]
        rw [← hE] at h
        have hone : ∀ ip1 : IndexPrices, ip1 = indexPrices.SetPrice entry →
            ∃ (visited later : List AcceptedAsset) (entries : List AssetPrice),
              aa :: tail = visited ++ later ∧
              visited.map (recordedEntry k) = entries.map some ∧
              ip1 = { indexPrices with Assets := indexPrices.Assets ++ entries } := by
          intro ip1 hip1
          refine ⟨[aa], tail, [entry], rfl, by simp [hentry], ?_⟩
          rw [hip1]; rfl
        have hmore : ∀ total2 : Dec,
            valuationLoop k supply k.AllMedianPrices tail (indexPrices.SetPrice entry) total2
              = .fail indexPrices1 err →
            ∃ (visited later : List AcceptedAsset) (entries : List AssetPrice),
              aa :: tail = visited ++ later ∧
              visited.map (recordedEntry k) = entries.map some ∧
              indexPrices1 = { indexPrices with Assets := indexPrices.Assets ++ entries } := by
          intro total2 hrec
          obtain ⟨visited, later, entries, hsplit, hmap, hip⟩ := ih _ _ _ _ hrec
          refine ⟨aa :: visited, later, entry :: entries, by simp [hsplit],
            by simp [hentry, hmap], ?_⟩
          rw [hip]; simp [IndexPrices.SetPrice]
        by_cases h0 : supply.MetokenSupply = 0
        · simp only [h0, if_true] at h
          cases hadd : total.Add assetPrice with
          | none => simp [hadd] at h
          | some total2 =>
            simp only [hadd] at h
            exact hmore total2 h
        · simp only [h0, if_false] at h
          rcases hab : supply.AssetBalance aa.Denom with ⟨balance, i⟩
          simp only [hab] at h
          by_cases hi : i < 0
          · simp only [hi, if_true, Step.fail.injEq] at h
            exact hone _ h.1.symm
          · simp only [hi, if_false] at h
            cases hval : valueInUSD balance.AvailableSupply assetPrice tokenSettings.Exponent with
            | panic => simp [hval] at h
            | error err1 =>
              simp only [hval, Step.fail.injEq] at h
              exact hone _ h.1.symm
            | ok assetUSDValue =>
              simp only [hval] at h
              cases hadd : total.Add assetUSDValue with
              | none => simp [hadd] at h
              | some total2 =>
                simp only [hadd] at h
                exact hmore total2 h

/-- The value the part of `Prices` before the second loop hands back on an error: no index
price, and exactly the entries recorded for the accepted assets visited so far. -/
theorem valuation_fail_recorded {k : Keeper} {index : Index} {indexPrices : IndexPrices}
    {err : Error} (h : valuation k index = .fail indexPrices err) :
    ∃ (visited later : List AcceptedAsset) (entries : List AssetPrice),
      index.AcceptedAssets = visited ++ later ∧
      visited.map (recordedEntry k) = entries.map some ∧
      indexPrices =
        { Denom := index.Denom, Price := none, Exponent := index.Exponent, Assets := entries } := by
  unfold valuation at h
  cases hs : k.IndexBalances index.Denom with
  | error err1 =>
    simp only [hs, Step.fail.injEq] at h
    exact ⟨[], index.AcceptedAssets, [], rfl, rfl, by rw [← h.1]; rfl⟩
  | ok supply =>
    simp only [hs] at h
    cases hloop : valuationLoop k supply k.AllMedianPrices index.AcceptedAssets
        (EmptyIndexPrices index) Dec.ZeroDec with
    | panic => simp [hloop] at h
    | fail indexPrices1 err1 =>
      simp only [hloop, Step.fail.injEq] at h
      obtain ⟨visited, later, entries, hsplit, hmap, hip⟩ :=
        valuationLoop_fail_recorded k supply _ _ _ _ _ hloop
      refine ⟨visited, later, entries, hsplit, hmap, ?_⟩
      rw [← h.1, hip]
      simp [EmptyIndexPrices]
    | next st =>
      obtain ⟨indexPrices1, total⟩ := st
      simp only [hloop] at h
      obtain ⟨entries, hmap, hip, _, _⟩ := valuationLoop_next k supply _ _ _ _ _ hloop
      unfold indexPriceStage at h
      by_cases h0 : supply.MetokenSupply = 0
      · simp only [h0, if_true] at h
        cases hq : Dec.QuoInt total (index.AcceptedAssets.length : Int) with
        | none => simp [hq] at h
        | some price => simp [hq] at h
      · simp only [h0, if_false] at h
        cases hp : priceInUSD supply.MetokenSupply total index.Exponent with
        | panic => simp [hp] at h
        | ok price => simp [hp] at h
        | error err1 =>
          simp only [hp, Step.fail.injEq] at h
          refine ⟨index.AcceptedAssets, [], entries, by simp, hmap, ?_⟩
          rw [← h.1, hip]
          simp [EmptyIndexPrices]

/-- Where the second loop stops on an error: the entries before the one whose rate fails
have got their rates, that entry and those after it are as they were, and the error is the
one of its swap rate, or of its redeem rate after its swap rate was derived. -/
theorem fillRates_stopped_split (price : Dec) (exponent : Nat) :
    ∀ (assets stoppedAt : List AssetPrice) (err : Error),
      fillRates price exponent assets = .stopped stoppedAt err →
      ∃ (pre filled rest : List AssetPrice) (asset : AssetPrice),
        assets = pre ++ asset :: rest ∧
        fillRates price exponent pre = .done filled ∧
        stoppedAt = filled ++ asset :: rest ∧
        (Rate asset.Price price asset.Exponent exponent = .error err ∨
          ((∃ swapRate, Rate asset.Price price asset.Exponent exponent = .ok swapRate) ∧
            Rate price asset.Price exponent asset.Exponent = .error err)) := by
  intro assets
  induction assets with
  | nil =>
    intro stoppedAt err h
    simp [fillRates] at h
  | cons asset rest ih =>
    intro stoppedAt err h
    simp only [fillRates] at h
    cases hswap : Rate asset.Price price asset.Exponent exponent with
    | panic => simp [hswap] at h
    | error err1 =>
      simp only [hswap, RateFill.stopped.injEq] at h
      refine ⟨[], [], rest, asset, rfl, rfl, by simp [← h.1], Or.inl ?_⟩
      rw [← h.2]
      exact hswap
    | ok swapRate =>
      cases hredeem : Rate price asset.Price exponent asset.Exponent with
      | panic => simp [hswap, hredeem] at h
      | error err1 =>
        simp only [hswap, hredeem, RateFill.stopped.injEq] at h
        refine ⟨[], [], rest, asset, rfl, rfl, by simp [← h.1],
          Or.inr ⟨⟨swapRate, hswap⟩, ?_⟩⟩
        rw [← h.2]
        exact hredeem
      | ok redeemRate =>
        simp only [hswap, hredeem] at h
        cases hrest : fillRates price exponent rest with
        | panic => simp [hrest] at h
        | done assets1 => simp [hrest] at h
        | stopped assets1 err1 =>
          simp only [hrest, RateFill.stopped.injEq] at h
          obtain ⟨pre, filled, rest1, asset1, hsplit, hpre, hstop, hfault⟩ := ih _ _ hrest
          refine ⟨asset :: pre,
            { asset with SwapRate := some swapRate, RedeemRate := some redeemRate } :: filled,
            rest1, asset1, by simp [hsplit], ?_, ?_, ?_⟩
          · rw [fillRates]
            simp only [hswap, hredeem, hpre]
          · rw [← h.1, hstop]
            rfl
          · rw [← h.2]
            exact hfault

/-- C6, as amended. When `Prices` returns an error, the `IndexPrices` value returned with
it has the denom and the exponent of the index and holds what was computed before the
fault.  Either no index price is set (registry miss, missing price, missing balance,
exponent fault) and its entries are exactly the entries recorded for the accepted assets
visited so far, in order, each with the base denom, the symbol and exponent of the token
settings and the latest price of its asset, and without rates; or the fault is a rate
fault: the index price is the one computed, every accepted asset has its entry, the
entries before the one whose rate fails carry the two rates derived from the index price,
and that entry and those after it are as recorded, without rates.  When no entry is
recorded the value is the empty `IndexPrices` of the index. -/
theorem prices_error_value (k : Keeper) (index : Index) (indexPrices : IndexPrices)
    (err : Error) (h : Prices k index = .fail indexPrices err) :
    indexPrices.Denom = index.Denom ∧ indexPrices.Exponent = index.Exponent ∧
    (∃ rest : List String,
      index.AcceptedAssets.map (fun aa => aa.Denom)
        = indexPrices.Assets.map (fun entry => entry.BaseDenom) ++ rest) ∧
    (indexPrices.Price = none →
      ∀ entry ∈ indexPrices.Assets, entry.SwapRate = none ∧ entry.RedeemRate = none) ∧
    (indexPrices.Assets = [] → indexPrices = EmptyIndexPrices index) ∧
    ((indexPrices.Price = none ∧
        ∃ visited later : List AcceptedAsset,
          index.AcceptedAssets = visited ++ later ∧
          visited.map (recordedEntry k) = indexPrices.Assets.map some) ∨
      (∃ (indexPrice : Dec) (recorded pre filled rest : List AssetPrice) (asset : AssetPrice),
        valuation k index =
          .next { Denom := index.Denom, Price := some indexPrice, Exponent := index.Exponent,
                  Assets := recorded } ∧
        index.AcceptedAssets.map (recordedEntry k) = recorded.map some ∧
        indexPrices.Price = some indexPrice ∧
        recorded = pre ++ asset :: rest ∧
        List.Forall₂
          (fun before after =>
            ∃ swapRate redeemRate,
              Rate before.Price indexPrice before.Exponent index.Exponent = .ok swapRate ∧
              Rate indexPrice before.Price index.Exponent before.Exponent = .ok redeemRate ∧
              after = { before with SwapRate := some swapRate, RedeemRate := some redeemRate })
          pre filled ∧
        indexPrices.Assets = filled ++ asset :: rest ∧
        (Rate asset.Price indexPrice asset.Exponent index.Exponent = .error err ∨
          ((∃ swapRate,
              Rate asset.Price indexPrice asset.Exponent index.Exponent = .ok swapRate) ∧
            Rate indexPrice asset.Price index.Exponent asset.Exponent = .error err)))) := by
  unfold Prices at h
  cases hv : valuation k index with
  | panic => simp [hv] at h
  | fail indexPrices1 err1 =>
    simp only [hv, Ret.fail.injEq] at h
    obtain ⟨hd, he, hp, hpre, hnone⟩ := valuation_fail hv
    obtain ⟨visited, later, entries, hsplit, hmap, hip⟩ := valuation_fail_recorded hv
    rw [← h.1]
    refine ⟨hd, he, hpre, fun _ => hnone, ?_, Or.inl ⟨hp, visited, later, hsplit, ?_⟩⟩
    · intro hnil
      cases indexPrices1
      simp only at hd he hp hnil
      simp [EmptyIndexPrices, hd, he, hp, hnil]
    · rw [hmap, hip]
  | next valued =>
    simp only [hv] at h
    obtain ⟨supply, entries, total, price, _, hmap, hvalued, _, _⟩ := valuation_next hv
    obtain ⟨hden, _⟩ := entries_of_map_recordedEntry _ _ hmap
    unfold rateStage at h
    rw [hvalued] at h
    simp only at h
    cases hf : fillRates price index.Exponent entries with
    | panic => simp [hf] at h
    | done assets => simp [hf] at h
    | stopped assets err1 =>
      simp only [hf, Ret.fail.injEq] at h
      obtain ⟨hbase, hne⟩ := fillRates_stopped _ _ _ _ _ hf
      obtain ⟨pre, filled, rest, asset, hsplit, hpre, hstop, hfault⟩ :=
        fillRates_stopped_split _ _ _ _ _ hf
      rw [← h.1]
      refine ⟨rfl, rfl, ⟨[], ?_⟩, ?_, ?_, Or.inr ⟨price, entries, pre, filled, rest, asset,
        by rw [hvalued], hmap, rfl, hsplit, fillRates_done _ _ _ _ hpre, hstop, ?_⟩⟩
      · simp [hbase, hden]
      · intro hnone; simp at hnone
      · intro hnil; exact absurd hnil hne
      · rw [← h.2]
        exact hfault

/-- Witness of C6 as amended: the scenario of a missing price. -/
theorem prices_error_value_witness :
    Prices gapKeeper gapIndex = .fail gapResult (.priceNotFound "ATOM") ∧
    gapResult.Assets = [usdtEntry] ∧
    (gapResult.Denom = gapIndex.Denom ∧ gapResult.Exponent = gapIndex.Exponent ∧
      (∃ rest : List String,
        gapIndex.AcceptedAssets.map (fun aa => aa.Denom)
          = gapResult.Assets.map (fun entry => entry.BaseDenom) ++ rest) ∧
      (gapResult.Price = none →
        ∀ entry ∈ gapResult.Assets, entry.SwapRate = none ∧ entry.RedeemRate = none) ∧
      (gapResult.Assets = [] → gapResult = EmptyIndexPrices gapIndex) ∧
      ((gapResult.Price = none ∧
          ∃ visited later : List AcceptedAsset,
            gapIndex.AcceptedAssets = visited ++ later ∧
            visited.map (recordedEntry gapKeeper) = gapResult.Assets.map some) ∨
        (∃ (indexPrice : Dec) (recorded pre filled rest : List AssetPrice)
            (asset : AssetPrice),
          valuation gapKeeper gapIndex =
            .next { Denom := gapIndex.Denom, Price := some indexPrice,
                    Exponent := gapIndex.Exponent, Assets := recorded } ∧
          gapIndex.AcceptedAssets.map (recordedEntry gapKeeper) = recorded.map some ∧
          gapResult.Price = some indexPrice ∧
          recorded = pre ++ asset :: rest ∧
          List.Forall₂
            (fun before after =>
              ∃ swapRate redeemRate,
                Rate before.Price indexPrice before.Exponent gapIndex.Exponent = .ok swapRate ∧
                Rate indexPrice before.Price gapIndex.Exponent before.Exponent
                  = .ok redeemRate ∧
                after =
                  { before with SwapRate := some swapRate, RedeemRate := some redeemRate })
            pre filled ∧
          gapResult.Assets = filled ++ asset :: rest ∧
          (Rate asset.Price indexPrice asset.Exponent gapIndex.Exponent
              = .error (.priceNotFound "ATOM") ∨
            ((∃ swapRate,
                Rate asset.Price indexPrice asset.Exponent gapIndex.Exponent = .ok swapRate) ∧
              Rate indexPrice asset.Price gapIndex.Exponent asset.Exponent
                = .error (.priceNotFound "ATOM")))))) :=
  ⟨by decide, rfl,
    prices_error_value gapKeeper gapIndex gapResult (.priceNotFound "ATOM") (by decide)⟩

/-- C6, counterexample. With the price of the second accepted asset missing, `Prices`
returns the error next to an `IndexPrices` value that holds the entry of the first
accepted asset: it is not the empty `IndexPrices` of the index. -/
theorem prices_error_value_not_empty :
    Prices gapKeeper gapIndex = .fail gapResult (.priceNotFound "ATOM") ∧
    gapResult.Assets.length = 1 ∧
    gapResult ≠ EmptyIndexPrices gapIndex :=
  ⟨by decide, rfl, by decide⟩

/-! ## The entries of a valuation -/

theorem forall₂_chain {α β γ : Type} {R : α → β → Prop} {S : β → γ → Prop}
    {T : α → γ → Prop} (hRS : ∀ a b c, R a b → S b c → T a c) :
    ∀ (l1 : List α) (l2 : List β) (l3 : List γ),
      List.Forall₂ R l1 l2 → List.Forall₂ S l2 l3 → List.Forall₂ T l1 l3 := by
  intro l1 l2 l3 h12
  induction h12 generalizing l3 with
  | nil =>
    intro h23
    cases h23
    exact List.Forall₂.nil
  | cons hab _ ih =>
    intro h23
    cases h23 with
    | cons hbc htail => exact List.Forall₂.cons (hRS _ _ _ hab hbc) (ih _ htail)

/-- C7. Composition-order preservation: when the accepted assets have no duplicate denoms
and `Prices` succeeds, the returned `Assets` has the length of `index.AcceptedAssets` and
its i-th entry has the base denom of the i-th accepted asset with the symbol and the
exponent of its token settings and the latest price of that symbol. -/
theorem prices_assets_in_order (k : Keeper) (index : Index) (indexPrices : IndexPrices)
    (_hnodup : (index.AcceptedAssets.map (fun aa => aa.Denom)).Nodup)
    (hok : Prices k index = .ok indexPrices) :
    indexPrices.Assets.length = index.AcceptedAssets.length ∧
    List.Forall₂
      (fun aa asset =>
        asset.BaseDenom = aa.Denom ∧
        ∃ tokenSettings,
          k.GetTokenSettings aa.Denom = .ok tokenSettings ∧
          asset.SymbolDenom = tokenSettings.SymbolDenom ∧
          asset.Exponent = tokenSettings.Exponent ∧
          latestPrice k.AllMedianPrices tokenSettings.SymbolDenom = .ok asset.Price)
      index.AcceptedAssets indexPrices.Assets := by
  obtain ⟨valued, price, assets, hv, hprice, hfill, hip⟩ := Prices_ok hok
  obtain ⟨supply, entries, total, price1, _, hmap, hvalued, _, _⟩ := valuation_next hv
  have h1 := forall₂_of_map_eq_map_some (recordedEntry k) _ _ hmap
  have h2 := fillRates_done _ _ _ _ hfill
  rw [hvalued] at h2
  simp only at h2
  have h3 : List.Forall₂
      (fun aa asset =>
        asset.BaseDenom = aa.Denom ∧
        ∃ tokenSettings,
          k.GetTokenSettings aa.Denom = .ok tokenSettings ∧
          asset.SymbolDenom = tokenSettings.SymbolDenom ∧
          asset.Exponent = tokenSettings.Exponent ∧
          latestPrice k.AllMedianPrices tokenSettings.SymbolDenom = .ok asset.Price)
      index.AcceptedAssets assets := by
    refine forall₂_chain ?_ _ _ _ h1 h2
    intro aa entry asset hentry hasset
    obtain ⟨tokenSettings, hts, hlp, hbase, hsym, hexp, _, _⟩ := recordedEntry_eq_some hentry
    obtain ⟨swapRate, redeemRate, _, _, hafter⟩ := hasset
    rw [hafter]
    exact ⟨hbase, tokenSettings, hts, hsym, hexp, hlp⟩
  have hassets : indexPrices.Assets = assets := by rw [hip]
  rw [hassets]
  exact ⟨h3.length_eq.symm, h3⟩

/-- Witness of C7: the first scenario. -/
theorem prices_assets_in_order_witness :
    Prices meanKeeper meanIndex = .ok meanResult ∧
    meanResult.Assets.length = meanIndex.AcceptedAssets.length ∧
    List.Forall₂
      (fun aa asset =>
        asset.BaseDenom = aa.Denom ∧
        ∃ tokenSettings,
          meanKeeper.GetTokenSettings aa.Denom = .ok tokenSettings ∧
          asset.SymbolDenom = tokenSettings.SymbolDenom ∧
          asset.Exponent = tokenSettings.Exponent ∧
          latestPrice meanKeeper.AllMedianPrices tokenSettings.SymbolDenom = .ok asset.Price)
      meanIndex.AcceptedAssets meanResult.Assets :=
  ⟨by decide, prices_assets_in_order meanKeeper meanIndex meanResult (by decide) (by decide)⟩

/-! ## The rates -/

/-- C8. Rate derivation per asset: when `Prices` succeeds, the index price is the one set
before the second loop and every returned entry comes from the entry recorded in the first
loop with the same base denom, symbol, price and exponent, its swap rate being
`Rate(price, indexPrice, exponent, indexExponent)` and its redeem rate
`Rate(indexPrice, price, indexExponent, exponent)`, each a call of `Rate` of its own. -/
theorem prices_rates (k : Keeper) (index : Index) (indexPrices : IndexPrices)
    (hok : Prices k index = .ok indexPrices) :
    ∃ (valued : IndexPrices) (indexPrice : Dec),
      valuation k index = .next valued ∧
      valued.Price = some indexPrice ∧ indexPrices.Price = some indexPrice ∧
      indexPrices.Exponent = index.Exponent ∧
      List.Forall₂
        (fun recorded asset =>
          (∃ swapRate,
            Rate asset.Price indexPrice asset.Exponent indexPrices.Exponent = .ok swapRate ∧
            asset.SwapRate = some swapRate) ∧
          (∃ redeemRate,
            Rate indexPrice asset.Price indexPrices.Exponent asset.Exponent = .ok redeemRate ∧
            asset.RedeemRate = some redeemRate) ∧
          asset.BaseDenom = recorded.BaseDenom ∧ asset.SymbolDenom = recorded.SymbolDenom ∧
          asset.Price = recorded.Price ∧ asset.Exponent = recorded.Exponent)
        valued.Assets indexPrices.Assets := by
  obtain ⟨valued, price, assets, hv, hprice, hfill, hip⟩ := Prices_ok hok
  obtain ⟨supply, entries, total, price1, _, _, hvalued, _, _⟩ := valuation_next hv
  have hexp : valued.Exponent = index.Exponent := by rw [hvalued]
  have h2 := fillRates_done _ _ _ _ hfill
  refine ⟨valued, price, hv, hprice, by rw [hip]; exact hprice, by rw [hip]; exact hexp, ?_⟩
  have hassets : indexPrices.Assets = assets := by rw [hip]
  have hexp2 : indexPrices.Exponent = valued.Exponent := by rw [hip]
  rw [hassets, hexp2]
  refine List.Forall₂.imp ?_ h2
  rintro recorded asset ⟨swapRate, redeemRate, hswap, hredeem, hafter⟩
  rw [hafter]
  exact ⟨⟨swapRate, hswap, rfl⟩, ⟨redeemRate, hredeem, rfl⟩, rfl, rfl, rfl, rfl⟩

/-- Witness of C8: the first scenario; the swap rate and the redeem rate of `uusdt` are
not inverse of each other: their product is not one. -/
theorem prices_rates_witness :
    Prices meanKeeper meanIndex = .ok meanResult ∧
    Dec.Mul ⟨999500249875062⟩ ⟨1000500000000000000000⟩ ≠ some Dec.OneDec ∧
    ∃ (valued : IndexPrices) (indexPrice : Dec),
      valuation meanKeeper meanIndex = .next valued ∧
      valued.Price = some indexPrice ∧ meanResult.Price = some indexPrice ∧
      meanResult.Exponent = meanIndex.Exponent ∧
      List.Forall₂
        (fun recorded asset =>
          (∃ swapRate,
            Rate asset.Price indexPrice asset.Exponent meanResult.Exponent = .ok swapRate ∧
            asset.SwapRate = some swapRate) ∧
          (∃ redeemRate,
            Rate indexPrice asset.Price meanResult.Exponent asset.Exponent = .ok redeemRate ∧
            asset.RedeemRate = some redeemRate) ∧
          asset.BaseDenom = recorded.BaseDenom ∧ asset.SymbolDenom = recorded.SymbolDenom ∧
          asset.Price = recorded.Price ∧ asset.Exponent = recorded.Exponent)
        valued.Assets meanResult.Assets :=
  ⟨by decide, by decide, prices_rates meanKeeper meanIndex meanResult (by decide)⟩

/-- The second loop over a list of entries in two parts, when it goes through the first
part. -/
theorem fillRates_append (price : Dec) (exponent : Nat) (post : List AssetPrice) :
    ∀ (pre filled : List AssetPrice), fillRates price exponent pre = .done filled →
      fillRates price exponent (pre ++ post) =
        match fillRates price exponent post with
        | .done assets => .done (filled ++ assets)
        | .stopped assets err => .stopped (filled ++ assets) err
        | .panic => .panic := by
  intro pre
  induction pre with
  | nil =>
    intro filled h
    simp only [fillRates, RateFill.done.injEq] at h
    subst h
    simp only [List.nil_append]
    cases fillRates price exponent post <;> rfl
  | cons asset rest ih =>
    intro filled h
    simp only [fillRates] at h
    cases hswap : Rate asset.Price price asset.Exponent exponent with
    | panic => simp [hswap] at h
    | error err => simp [hswap] at h
    | ok swapRate =>
      cases hredeem : Rate price asset.Price exponent asset.Exponent with
      | panic => simp [hswap, hredeem] at h
      | error err => simp [hswap, hredeem] at h
      | ok redeemRate =>
        simp only [hswap, hredeem] at h
        cases hrest : fillRates price exponent rest with
        | panic => simp [hrest] at h
        | stopped assets1 err => simp [hrest] at h
        | done assets1 =>
          simp only [hrest, RateFill.done.injEq] at h
          subst h
          have hih := ih _ hrest
          have hcons : fillRates price exponent (asset :: (rest ++ post)) =
              match fillRates price exponent (rest ++ post) with
              | .panic => .panic
              | .stopped assets err =>
                .stopped
                  ({ asset with SwapRate := some swapRate, RedeemRate := some redeemRate }
                    :: assets) err
              | .done assets =>
                .done
                  ({ asset with SwapRate := some swapRate, RedeemRate := some redeemRate }
                    :: assets) := by
            rw [fillRates]
            simp only [hswap, hredeem]
          rw [List.cons_append, hcons, hih]
          cases fillRates price exponent post <;> rfl

theorem Rate_zero_denominator (priceFrom priceTo : Dec) (exponentFrom exponentTo : Nat)
    (h : priceTo.i = 0) :
    Rate priceFrom priceTo exponentFrom exponentTo = .error .zeroPrice := by
  simp [Rate, Dec.IsZero, h]

/-- C9. Zero-price guard: when the second loop of `Prices` reaches a call of `Rate` whose
denominator price is zero (all entries before `asset` got their rates, and either the index
price is zero, or the swap rate of `asset` was derived and the price of `asset` is zero),
that call returns the zero-price error without dividing and `Prices` returns this error;
it does not panic. -/
theorem prices_zero_price_guard (k : Keeper) (index : Index) (valued : IndexPrices)
    (indexPrice : Dec) (pre post filled : List AssetPrice) (asset : AssetPrice)
    (hv : valuation k index = .next valued) (hp : valued.Price = some indexPrice)
    (hsplit : valued.Assets = pre ++ asset :: post)
    (hpre : fillRates indexPrice valued.Exponent pre = .done filled)
    (hzero : indexPrice.i = 0 ∨
      ((∃ swapRate,
          Rate asset.Price indexPrice asset.Exponent valued.Exponent = .ok swapRate) ∧
        asset.Price.i = 0)) :
    (indexPrice.i = 0 →
      Rate asset.Price indexPrice asset.Exponent valued.Exponent = .error .zeroPrice) ∧
    (asset.Price.i = 0 →
      Rate indexPrice asset.Price valued.Exponent asset.Exponent = .error .zeroPrice) ∧
    Prices k index = .fail { valued with Assets := filled ++ asset :: post } .zeroPrice := by
  refine ⟨Rate_zero_denominator _ _ _ _, Rate_zero_denominator _ _ _ _, ?_⟩
  have hstop : fillRates indexPrice valued.Exponent (asset :: post)
      = .stopped (asset :: post) .zeroPrice := by
    rcases hzero with h | ⟨⟨swapRate, hswap⟩, h⟩
    · simp [fillRates, Rate_zero_denominator _ _ _ _ h]
    · simp [fillRates, hswap, Rate_zero_denominator _ _ _ _ h]
  simp [Prices, hv, rateStage, hp, hsplit, fillRates_append _ _ _ _ _ hpre, hstop]

/-- Witness of C9: in the scenario of a zero price the index price is 0.50, the rates of
`uusdt` are derived, the swap rate of `uatom` is zero and its redeem rate divides by the
price zero: `Prices` returns the zero-price error. -/
theorem prices_zero_price_guard_witness :
    valuation zeroKeeper gapIndex = .next zeroValued ∧
    (Rate ⟨500000000000000000⟩ atomZeroEntry.Price 6 atomZeroEntry.Exponent
      = .error .zeroPrice) ∧
    ((⟨500000000000000000⟩ : Dec).i = 0 →
      Rate atomZeroEntry.Price ⟨500000000000000000⟩ atomZeroEntry.Exponent zeroValued.Exponent
        = .error .zeroPrice) ∧
    (atomZeroEntry.Price.i = 0 →
      Rate ⟨500000000000000000⟩ atomZeroEntry.Price zeroValued.Exponent atomZeroEntry.Exponent
        = .error .zeroPrice) ∧
    Prices zeroKeeper gapIndex =
      .fail
        { zeroValued with
          Assets :=
            [{ usdtEntry with
               SwapRate := some ⟨2000000000000000000⟩,
               RedeemRate := some ⟨500000000000000000⟩ }] ++ atomZeroEntry :: [] }
        .zeroPrice :=
  ⟨by decide, by decide,
    prices_zero_price_guard zeroKeeper gapIndex zeroValued ⟨500000000000000000⟩ [usdtEntry] []
      [{ usdtEntry with
         SwapRate := some ⟨2000000000000000000⟩,
         RedeemRate := some ⟨500000000000000000⟩ }]
      atomZeroEntry (by decide) rfl rfl (by decide) (Or.inr ⟨⟨⟨0⟩, by decide⟩, rfl⟩)⟩

/-! ## Missing balance -/

theorem assetBalanceFrom_missing (denom : String) :
    ∀ (balances : List AssetBalance) (i : Nat),
      (∀ balance ∈ balances, balance.Denom ≠ denom) →
      (assetBalanceFrom denom balances i).2 = -1 := by
  intro balances
  induction balances with
  | nil => intro i _; rfl
  | cons balance rest ih =>
    intro i h
    have hne : balance.Denom ≠ denom := h balance (List.mem_cons_self _ _)
    simp only [assetBalanceFrom, hne, if_false]
    exact ih _ (fun b hb => h b (List.mem_cons_of_mem _ hb))

/-- C10, as amended. When meTokens are minted, the first loop goes through the accepted
assets before `aa` (each has token settings, a price, a balance entry and a value, and the
total does not overflow), token settings and a price are found for `aa`, and the index
balances have no entry for the denom of `aa`, then `Prices` returns the not-found error
for that denom, next to the entries recorded so far: the missing balance is not taken as
zero. -/
theorem prices_missing_balance (k : Keeper) (index : Index) (supply : IndexBalances)
    (pre post : List AcceptedAsset) (aa : AcceptedAsset) (tokenSettings : Token)
    (assetPrice total1 : Dec) (indexPrices1 : IndexPrices)
    (hs : k.IndexBalances index.Denom = .ok supply) (hminted : supply.MetokenSupply ≠ 0)
    (hsplit : index.AcceptedAssets = pre ++ aa :: post)
    (hpre : valuationLoop k supply k.AllMedianPrices pre (EmptyIndexPrices index) Dec.ZeroDec
      = .next (indexPrices1, total1))
    (hts : k.GetTokenSettings aa.Denom = .ok tokenSettings)
    (hlp : latestPrice k.AllMedianPrices tokenSettings.SymbolDenom = .ok assetPrice)
    (hmissing : ∀ balance ∈ supply.AssetBalances, balance.Denom ≠ aa.Denom) :
    Prices k index =
      .fail
        (indexPrices1.SetPrice
          { BaseDenom := aa.Denom
            SymbolDenom := tokenSettings.SymbolDenom
            Price := assetPrice
            Exponent := tokenSettings.Exponent
            SwapRate := none
            RedeemRate := none })
        (.balanceNotFound aa.Denom) := by
  have hidx : (supply.AssetBalance aa.Denom).2 = -1 :=
    assetBalanceFrom_missing _ _ _ hmissing
  have hlt : (supply.AssetBalance aa.Denom).2 < 0 := by rw [hidx]; decide
  have hloop : valuationLoop k supply k.AllMedianPrices (aa :: post) indexPrices1 total1 =
      .fail
        (indexPrices1.SetPrice
          { BaseDenom := aa.Denom
            SymbolDenom := tokenSettings.SymbolDenom
            Price := assetPrice
            Exponent := tokenSettings.Exponent
            SwapRate := none
            RedeemRate := none })
        (.balanceNotFound aa.Denom) := by
    rw [valuationLoop]
    simp only [hts, hlp, hminted, if_false]
    rcases hab : supply.AssetBalance aa.Denom with ⟨balance, i⟩
    rw [hab] at hlt
    simp only at hlt
    simp only [hlt, if_true]
  simp only [Prices, valuation, hs, hsplit, valuationLoop_append, hpre, hloop]

/-- Witness of C10 as amended: the scenario of a missing balance, where `uusdt` has a
balance entry and `uatom` has none. -/
theorem prices_missing_balance_witness :
    Prices missKeeper gapIndex =
      .fail
        ((unpriced [usdtEntry]).SetPrice atomEntry) (.balanceNotFound "uatom") ∧
    (unpriced [usdtEntry]).SetPrice atomEntry = unpriced [usdtEntry, atomEntry] :=
  ⟨prices_missing_balance missKeeper gapIndex missBalances [⟨"uusdt"⟩] [] ⟨"uatom"⟩ ⟨"ATOM", 6⟩
    ⟨9000000000000000000⟩ ⟨5000000000000000000⟩ (unpriced [usdtEntry]) rfl (by decide) rfl
    (by decide) rfl rfl (by decide), rfl⟩

/-- C10, counterexample. Token settings and a price are found for both accepted assets
and `uatom` has no balance entry, yet `Prices` does not return the not-found error for
`uatom`: with no balance entry for `uusdt` either the error is the one of `uusdt`, and
with a balance entry for `uusdt` and an exponent without factor the error is the exponent
fault of `valueInUSD`, not a not-found error. -/
theorem prices_missing_balance_other_error :
    (bareKeeper.IndexBalances gapIndex.Denom = .ok ⟨100000000, []⟩ ∧
      gapIndex.AcceptedAssets.map (resolvedPrice bareKeeper)
        = [some ⟨1000000000000000000⟩, some ⟨9000000000000000000⟩] ∧
      (IndexBalances.AssetBalance ⟨100000000, []⟩ "uatom").2 = -1 ∧
      Prices bareKeeper gapIndex = .fail (unpriced [usdtEntry]) (.balanceNotFound "uusdt") ∧
      ¬ ∃ indexPrices,
          Prices bareKeeper gapIndex = .fail indexPrices (.balanceNotFound "uatom")) ∧
    (farKeeper.IndexBalances gapIndex.Denom = .ok missBalances ∧
      missBalances.MetokenSupply ≠ 0 ∧
      gapIndex.AcceptedAssets.map (resolvedPrice farKeeper)
        = [some ⟨1000000000000000000⟩, some ⟨9000000000000000000⟩] ∧
      (missBalances.AssetBalance "uatom").2 = -1 ∧
      Prices farKeeper gapIndex
        = .fail (unpriced [{ usdtEntry with Exponent := 19 }]) (.invalidExponent (-19)) ∧
      ¬ ∃ indexPrices denom,
          Prices farKeeper gapIndex = .fail indexPrices (.balanceNotFound denom)) := by
  have hbare : Prices bareKeeper gapIndex
      = .fail (unpriced [usdtEntry]) (.balanceNotFound "uusdt") := by decide
  have hfar : Prices farKeeper gapIndex
      = .fail (unpriced [{ usdtEntry with Exponent := 19 }]) (.invalidExponent (-19)) := by
    decide
  refine ⟨⟨rfl, by decide, by decide, hbare, ?_⟩, ⟨rfl, by decide, by decide, by decide, hfar, ?_⟩⟩
  · rintro ⟨indexPrices, h⟩
    rw [hbare] at h
    simp only [Ret.fail.injEq, Error.balanceNotFound.injEq] at h
    exact absurd h.2 (by decide)
  · rintro ⟨indexPrices, denom, h⟩
    rw [hfar] at h
    simp at h

/-! ## Order of the observations -/

/-- The two outcomes of `latestPrice`: the error when no observation for the symbol has a
positive block number, and otherwise the exchange rate of an observation for the symbol of
greatest block number. -/
theorem latestPrice_cases (prices : List Price) (symbolDenom : String) :
    (latestPrice prices symbolDenom = .error (.priceNotFound symbolDenom) ∧
      ∀ p ∈ prices, p.ExchangeRateTuple.Denom = symbolDenom → p.BlockNum = 0) ∨
    ∃ m ∈ prices, m.ExchangeRateTuple.Denom = symbolDenom ∧ 0 < m.BlockNum ∧
      (∀ r ∈ prices, r.ExchangeRateTuple.Denom = symbolDenom → r.BlockNum ≤ m.BlockNum) ∧
      latestPrice prices symbolDenom = .ok m.ExchangeRateTuple.ExchangeRate := by
  obtain ⟨h1, _, h3⟩ := latestPriceStep_foldl_spec symbolDenom prices emptyPrice
  by_cases hzero : (prices.foldl (latestPriceStep symbolDenom) emptyPrice).BlockNum = 0
  · left
    refine ⟨by simp [latestPrice, hzero], ?_⟩
    intro p hp hpd
    have := h3 p hp hpd
    omega
  · right
    rcases h1 with h1 | ⟨hmem, hden⟩
    · rw [h1] at hzero; exact absurd rfl hzero
    · exact ⟨_, hmem, hden, by omega, h3, by simp [latestPrice, hzero]⟩

/-- The loop of `latestPrice` keeps its choice over observations that are not strictly
higher. -/
theorem latestPriceStep_foldl_keeps (symbolDenom : String) (acc : Price) :
    ∀ prices : List Price,
      (∀ p ∈ prices, p.ExchangeRateTuple.Denom = symbolDenom → p.BlockNum ≤ acc.BlockNum) →
      prices.foldl (latestPriceStep symbolDenom) acc = acc := by
  intro prices
  induction prices with
  | nil => intro _; rfl
  | cons q qs ih =>
    intro h
    have hstep : latestPriceStep symbolDenom acc q = acc := by
      unfold latestPriceStep
      split
      · rename_i hq
        have := h q (List.mem_cons_self _ _) hq.1
        omega
      · rfl
    rw [List.foldl_cons, hstep]
    exact ih (fun p hp hpd => h p (List.mem_cons_of_mem _ hp) hpd)

/-- C14. Order independence of price selection: on two price lists that are permutations
of each other, in which any two observations for the symbol at the greatest block height of
the symbol are one and the same observation, `latestPrice` returns the same result, price
or error. -/
theorem latestPrice_perm (prices1 prices2 : List Price) (symbolDenom : String)
    (hperm : prices1.Perm prices2)
    (hunique : ∀ p ∈ prices1, ∀ q ∈ prices1,
      p.ExchangeRateTuple.Denom = symbolDenom → q.ExchangeRateTuple.Denom = symbolDenom →
      (∀ r ∈ prices1, r.ExchangeRateTuple.Denom = symbolDenom → r.BlockNum ≤ p.BlockNum) →
      (∀ r ∈ prices1, r.ExchangeRateTuple.Denom = symbolDenom → r.BlockNum ≤ q.BlockNum) →
      p = q) :
    latestPrice prices1 symbolDenom = latestPrice prices2 symbolDenom := by
  rcases latestPrice_cases prices1 symbolDenom with ⟨he1, hz1⟩ | ⟨m1, hm1, hd1, hp1, hmax1, hok1⟩
  · rcases latestPrice_cases prices2 symbolDenom with ⟨he2, _⟩ | ⟨m2, hm2, hd2, hp2, _, _⟩
    · rw [he1, he2]
    · have := hz1 m2 (hperm.mem_iff.mpr hm2) hd2
      omega
  · rcases latestPrice_cases prices2 symbolDenom with ⟨_, hz2⟩ | ⟨m2, hm2, hd2, hp2, hmax2, hok2⟩
    · have := hz2 m1 (hperm.mem_iff.mp hm1) hd1
      omega
    · have hmax2in1 : ∀ r ∈ prices1, r.ExchangeRateTuple.Denom = symbolDenom →
          r.BlockNum ≤ m2.BlockNum := fun r hr hrd => hmax2 r (hperm.mem_iff.mp hr) hrd
      have heq := hunique m1 hm1 m2 (hperm.mem_iff.mpr hm2) hd1 hd2 hmax1 hmax2in1
      rw [hok1, hok2, heq]

/-- Witness of C14: three observations, the one for `ATOM` at height 20 being the only one
at the greatest height, in two orders. -/
theorem latestPrice_perm_witness :
    latestPrice [⟨⟨"ATOM", ⟨7⟩⟩, 10⟩, ⟨⟨"UMEE", ⟨1⟩⟩, 30⟩, ⟨⟨"ATOM", ⟨9⟩⟩, 20⟩] "ATOM" =
      latestPrice [⟨⟨"ATOM", ⟨9⟩⟩, 20⟩, ⟨⟨"ATOM", ⟨7⟩⟩, 10⟩, ⟨⟨"UMEE", ⟨1⟩⟩, 30⟩] "ATOM" :=
  latestPrice_perm _ _ "ATOM" (by decide) (by decide)

/-- C16. Tie-break on equal height: when the observation `m` for the symbol has a positive
block height, every observation for the symbol before it in the list is strictly lower and
every one after it is lower or as high, `latestPrice` returns the exchange rate of `m`: of
the observations that share the greatest height, the first in the list. -/
theorem latestPrice_first_of_ties (pre post : List Price) (m : Price) (symbolDenom : String)
    (hm : m.ExchangeRateTuple.Denom = symbolDenom) (hpos : 0 < m.BlockNum)
    (hpre : ∀ p ∈ pre, p.ExchangeRateTuple.Denom = symbolDenom → p.BlockNum < m.BlockNum)
    (hpost : ∀ p ∈ post, p.ExchangeRateTuple.Denom = symbolDenom → p.BlockNum ≤ m.BlockNum) :
    latestPrice (pre ++ m :: post) symbolDenom = .ok m.ExchangeRateTuple.ExchangeRate := by
  obtain ⟨h1, _, _⟩ := latestPriceStep_foldl_spec symbolDenom pre emptyPrice
  have hlow : (pre.foldl (latestPriceStep symbolDenom) emptyPrice).BlockNum < m.BlockNum := by
    rcases h1 with h1 | ⟨hmem, hden⟩
    · rw [h1]; exact hpos
    · exact hpre _ hmem hden
  have hstep : latestPriceStep symbolDenom (pre.foldl (latestPriceStep symbolDenom) emptyPrice) m
      = m := by
    simp [latestPriceStep, hm, hlow]
  have hfold : (pre ++ m :: post).foldl (latestPriceStep symbolDenom) emptyPrice = m := by
    rw [List.foldl_append, List.foldl_cons, hstep]
    exact latestPriceStep_foldl_keeps symbolDenom m post hpost
  have hne : m.BlockNum ≠ 0 := by omega
  simp [latestPrice, hfold, hne]

/-- Witness of C16: two observations for `ATOM` share the height 20; the first of them in
the list gives the price. -/
theorem latestPrice_first_of_ties_witness :
    latestPrice ([⟨⟨"ATOM", ⟨7⟩⟩, 10⟩] ++ ⟨⟨"ATOM", ⟨9⟩⟩, 20⟩ :: [⟨⟨"ATOM", ⟨8⟩⟩, 20⟩]) "ATOM"
      = .ok ⟨9⟩ :=
  latestPrice_first_of_ties [⟨⟨"ATOM", ⟨7⟩⟩, 10⟩] [⟨⟨"ATOM", ⟨8⟩⟩, 20⟩] ⟨⟨"ATOM", ⟨9⟩⟩, 20⟩ "ATOM"
    rfl (by decide) (by decide) (by decide)

/-! ## No meToken minted -/

/-- With no meToken minted the first loop does not read the balance entries. -/
theorem valuationLoop_zero_supply_congr (k1 k2 : Keeper) (supply1 supply2 : IndexBalances)
    (allPrices : List Price)
    (hsettings : ∀ denom, k1.GetTokenSettings denom = k2.GetTokenSettings denom)
    (hzero1 : supply1.MetokenSupply = 0) (hzero2 : supply2.MetokenSupply = 0) :
    ∀ (l : List AcceptedAsset) (indexPrices : IndexPrices) (total : Dec),
      valuationLoop k1 supply1 allPrices l indexPrices total =
        valuationLoop k2 supply2 allPrices l indexPrices total := by
  intro l
  induction l with
  | nil => intro indexPrices total; simp [valuationLoop]
  | cons aa rest ih =>
    intro indexPrices total
    simp only [valuationLoop, hsettings aa.Denom, hzero1, hzero2, if_true]
    cases k2.GetTokenSettings aa.Denom with
    | error err => rfl
    | ok tokenSettings =>
      simp only
      cases latestPrice allPrices tokenSettings.SymbolDenom with
      | error err => rfl
      | ok assetPrice =>
        simp only
        cases total.Add assetPrice with
        | none => rfl
        | some total2 => exact ih _ _

/-- C15. Zero-supply valuation ignores reserve balances: for two reserve states that both
report no meToken minted, whatever their balance entries, and the same token settings and
oracle prices, `Prices` returns the same result: the same valuation, the same error with
the same value, or the same panic. -/
theorem prices_zero_supply_ignores_balances (k1 k2 : Keeper) (index : Index)
    (supply1 supply2 : IndexBalances)
    (hprices : k1.AllMedianPrices = k2.AllMedianPrices)
    (hsettings : ∀ denom, k1.GetTokenSettings denom = k2.GetTokenSettings denom)
    (hs1 : k1.IndexBalances index.Denom = .ok supply1)
    (hs2 : k2.IndexBalances index.Denom = .ok supply2)
    (hzero1 : supply1.MetokenSupply = 0) (hzero2 : supply2.MetokenSupply = 0) :
    Prices k1 index = Prices k2 index := by
  have hloop := valuationLoop_zero_supply_congr k1 k2 supply1 supply2 k2.AllMedianPrices
    hsettings hzero1 hzero2 index.AcceptedAssets (EmptyIndexPrices index) Dec.ZeroDec
  have hval : valuation k1 index = valuation k2 index := by
    simp only [valuation, hs1, hs2, hprices, hloop, indexPriceStage, hzero1, hzero2, if_true]
  simp only [Prices, hval]

/-- Witness of C15: the first scenario with and without balance entries. -/
theorem prices_zero_supply_ignores_balances_witness :
    Prices meanKeeper meanIndex = Prices idleKeeper meanIndex ∧
    Prices idleKeeper meanIndex = .ok meanResult :=
  ⟨prices_zero_supply_ignores_balances meanKeeper idleKeeper meanIndex ⟨0, []⟩
      ⟨0, [⟨"weth", 15000000000000000000⟩, ⟨"uatom", 7⟩]⟩ rfl (fun _ => rfl) rfl rfl rfl rfl,
    by decide⟩

/-- The truncated quotient of a sum of `n` integers lies between any bounds of them. -/
theorem tdiv_sum_between (xs : List Int) (lo hi : Int) (hne : xs ≠ [])
    (hlo : ∀ x ∈ xs, lo ≤ x) (hhi : ∀ x ∈ xs, x ≤ hi) :
    lo ≤ Int.tdiv xs.sum (xs.length : Int) ∧ Int.tdiv xs.sum (xs.length : Int) ≤ hi := by
  have hlen : 0 < (xs.length : Int) := by
    have := List.length_pos.mpr hne
    omega
  have hsum : (xs.length : Int) * lo ≤ xs.sum ∧ xs.sum ≤ (xs.length : Int) * hi := by
    clear hne hlen
    induction xs with
    | nil => simp
    | cons x rest ih =>
      have h1 := hlo x (List.mem_cons_self _ _)
      have h2 := hhi x (List.mem_cons_self _ _)
      obtain ⟨ih1, ih2⟩ := ih (fun y hy => hlo y (List.mem_cons_of_mem _ hy))
        (fun y hy => hhi y (List.mem_cons_of_mem _ hy))
      simp only [List.length_cons, List.sum_cons, Nat.cast_add, Nat.cast_one]
      constructor <;> nlinarith
  obtain ⟨hb1, hb2⟩ := tdiv_mul_sub_bounds xs.sum (xs.length : Int) hlen
  constructor
  · by_contra hcon
    have hlt : Int.tdiv xs.sum (xs.length : Int) + 1 ≤ lo := by omega
    have := mul_le_mul_of_nonneg_right hlt (le_of_lt hlen)
    nlinarith [hsum.1]
  · by_contra hcon
    have hlt : hi + 1 ≤ Int.tdiv xs.sum (xs.length : Int) := by omega
    have := mul_le_mul_of_nonneg_right hlt (le_of_lt hlen)
    nlinarith [hsum.2]

theorem exists_smallest_price :
    ∀ prices : List Dec, prices ≠ [] → ∃ smallest ∈ prices, ∀ p ∈ prices, smallest.i ≤ p.i := by
  intro prices
  induction prices with
  | nil => intro h; exact absurd rfl h
  | cons d rest ih =>
    intro _
    by_cases hrest : rest = []
    · subst hrest
      exact ⟨d, List.mem_cons_self _ _, by simp⟩
    · obtain ⟨m, hm, hmin⟩ := ih hrest
      by_cases hdm : d.i ≤ m.i
      · refine ⟨d, List.mem_cons_self _ _, ?_⟩
        intro p hp
        rcases List.mem_cons.mp hp with rfl | hp
        · exact le_refl _
        · exact le_trans hdm (hmin p hp)
      · refine ⟨m, List.mem_cons_of_mem _ hm, ?_⟩
        intro p hp
        rcases List.mem_cons.mp hp with rfl | hp
        · omega
        · exact hmin p hp

theorem exists_largest_price :
    ∀ prices : List Dec, prices ≠ [] → ∃ largest ∈ prices, ∀ p ∈ prices, p.i ≤ largest.i := by
  intro prices
  induction prices with
  | nil => intro h; exact absurd rfl h
  | cons d rest ih =>
    intro _
    by_cases hrest : rest = []
    · subst hrest
      exact ⟨d, List.mem_cons_self _ _, by simp⟩
    · obtain ⟨m, hm, hmax⟩ := ih hrest
      by_cases hdm : m.i ≤ d.i
      · refine ⟨d, List.mem_cons_self _ _, ?_⟩
        intro p hp
        rcases List.mem_cons.mp hp with rfl | hp
        · exact le_refl _
        · exact le_trans (hmax p hp) hdm
      · refine ⟨m, List.mem_cons_of_mem _ hm, ?_⟩
        intro p hp
        rcases List.mem_cons.mp hp with rfl | hp
        · omega
        · exact hmax p hp

/-- C17. Bootstrap price is bounded by its constituents: when no meToken is minted and
`Prices` succeeds, there is at least one accepted asset, and the index price is at least
the smallest of the resolved asset prices and at most the largest; with exactly one
accepted asset the index price is the price of that asset. -/
theorem prices_bootstrap_bounded (k : Keeper) (index : Index) (supply : IndexBalances)
    (indexPrices : IndexPrices)
    (hs : k.IndexBalances index.Denom = .ok supply) (h0 : supply.MetokenSupply = 0)
    (hok : Prices k index = .ok indexPrices) :
    ∃ (prices : List Dec) (price : Dec),
      index.AcceptedAssets.map (resolvedPrice k) = prices.map some ∧
      index.AcceptedAssets ≠ [] ∧
      indexPrices.Price = some price ∧
      (∃ smallest ∈ prices, (∀ p ∈ prices, smallest.i ≤ p.i) ∧ smallest.i ≤ price.i) ∧
      (∃ largest ∈ prices, (∀ p ∈ prices, p.i ≤ largest.i) ∧ price.i ≤ largest.i) ∧
      (∀ p, prices = [p] → price = p) := by
  obtain ⟨valued, price, assets, hv, hprice, _, hip⟩ := Prices_ok hok
  obtain ⟨supply1, entries, total, price1, hs1, hmap, hvalued, hzero, _⟩ := valuation_next hv
  rw [hs] at hs1
  cases hs1
  obtain ⟨htotal, hquo⟩ := hzero h0
  have hp : indexPrices.Price = some price1 := by rw [hip, hvalued]
  have hlen : index.AcceptedAssets.length = (entries.map (fun entry => entry.Price)).length := by
    have := congrArg List.length hmap
    simpa using this
  have hN : (index.AcceptedAssets.length : Int) ≠ 0 := by
    intro hz
    simp [Dec.QuoInt, hz] at hquo
  have hne : index.AcceptedAssets ≠ [] := by
    intro hnil
    rw [hnil] at hN
    exact hN rfl
  have hpne : entries.map (fun entry => entry.Price) ≠ [] := by
    intro hnil
    rw [hnil] at hlen
    exact hne (List.length_eq_zero.mp hlen)
  have hprice1 : price1.i = Int.tdiv (sumUnits (entries.map (fun entry => entry.Price)))
      (((entries.map (fun entry => entry.Price)).map (fun d => d.i)).length : Int) := by
    simp only [Dec.QuoInt, hN, if_false, Option.some.injEq] at hquo
    rw [← hquo, htotal, hlen]
    simp
  have hxs : (entries.map (fun entry => entry.Price)).map (fun d => d.i) ≠ [] := by
    simpa using hpne
  obtain ⟨smallest, hsmem, hmin⟩ := exists_smallest_price _ hpne
  obtain ⟨largest, hlmem, hmax⟩ := exists_largest_price _ hpne
  have hbetween := tdiv_sum_between _ smallest.i largest.i hxs
    (by
      intro x hx
      obtain ⟨d, hd, rfl⟩ := List.mem_map.mp hx
      exact hmin d hd)
    (by
      intro x hx
      obtain ⟨d, hd, rfl⟩ := List.mem_map.mp hx
      exact hmax d hd)
  have hsum : ((entries.map (fun entry => entry.Price)).map (fun d => d.i)).sum
      = sumUnits (entries.map (fun entry => entry.Price)) := rfl
  rw [hsum, ← hprice1] at hbetween
  refine ⟨entries.map (fun entry => entry.Price), price1, map_resolvedPrice_of_entries hmap,
    hne, hp, ⟨smallest, hsmem, hmin, hbetween.1⟩, ⟨largest, hlmem, hmax, hbetween.2⟩, ?_⟩
  intro p hsingle
  rw [hsingle] at hsmem hlmem
  rw [List.mem_singleton.mp hsmem, List.mem_singleton.mp hlmem] at hbetween
  have hpi : price1.i = p.i := by omega
  cases price1
  cases p
  simp only at hpi
  rw [hpi]

/-- Witness of C17: in the first scenario the index price 1000.50 lies between the prices
1.00 and 2000.00. -/
theorem prices_bootstrap_bounded_witness :
    Prices meanKeeper meanIndex = .ok meanResult ∧
    ∃ (prices : List Dec) (price : Dec),
      meanIndex.AcceptedAssets.map (resolvedPrice meanKeeper) = prices.map some ∧
      meanIndex.AcceptedAssets ≠ [] ∧
      meanResult.Price = some price ∧
      (∃ smallest ∈ prices, (∀ p ∈ prices, smallest.i ≤ p.i) ∧ smallest.i ≤ price.i) ∧
      (∃ largest ∈ prices, (∀ p ∈ prices, p.i ≤ largest.i) ∧ price.i ≤ largest.i) ∧
      (∀ p, prices = [p] → price = p) :=
  ⟨by decide, prices_bootstrap_bounded meanKeeper meanIndex ⟨0, []⟩ meanResult rfl rfl
    (by decide)⟩

/-! ## Faults of the first loop -/

/-- `Prices` when the first loop has gone through the accepted assets `pre` and meets the
accepted asset `aa` next. -/
theorem Prices_after (k : Keeper) (index : Index) (supply : IndexBalances)
    (pre post : List AcceptedAsset) (aa : AcceptedAsset) (total1 : Dec)
    (indexPrices1 : IndexPrices)
    (hs : k.IndexBalances index.Denom = .ok supply)
    (hsplit : index.AcceptedAssets = pre ++ aa :: post)
    (hpre : valuationLoop k supply k.AllMedianPrices pre (EmptyIndexPrices index) Dec.ZeroDec
      = .next (indexPrices1, total1)) :
    Prices k index =
      match
        (match valuationLoop k supply k.AllMedianPrices (aa :: post) indexPrices1 total1 with
          | .panic => Step.panic
          | .fail indexPrices2 err => .fail indexPrices2 err
          | .next (indexPrices2, total2) => indexPriceStage index supply indexPrices2 total2)
      with
      | .panic => .panic
      | .fail indexPrices2 err => .fail indexPrices2 err
      | .next indexPrices2 => rateStage indexPrices2 := by
  simp only [Prices, valuation, hs, hsplit, valuationLoop_append, hpre]

/-- C11, as amended. When the first loop goes through the accepted assets before `aa`
(their lookups succeed, their values are computed and the total does not overflow), token
settings are found for `aa` and the oracle price list has no observation for their symbol
denom, `Prices` returns the error of `latestPrice`, whose message names that symbol, next to
the entries recorded so far: it does not return a valuation. -/
theorem prices_missing_price (k : Keeper) (index : Index) (supply : IndexBalances)
    (pre post : List AcceptedAsset) (aa : AcceptedAsset) (tokenSettings : Token)
    (total1 : Dec) (indexPrices1 : IndexPrices)
    (hs : k.IndexBalances index.Denom = .ok supply)
    (hsplit : index.AcceptedAssets = pre ++ aa :: post)
    (hpre : valuationLoop k supply k.AllMedianPrices pre (EmptyIndexPrices index) Dec.ZeroDec
      = .next (indexPrices1, total1))
    (hts : k.GetTokenSettings aa.Denom = .ok tokenSettings)
    (hnone : ∀ p ∈ k.AllMedianPrices, p.ExchangeRateTuple.Denom ≠ tokenSettings.SymbolDenom) :
    Prices k index = .fail indexPrices1 (.priceNotFound tokenSettings.SymbolDenom) ∧
    (Error.priceNotFound tokenSettings.SymbolDenom).message
      = "price not found in oracle for denom " ++ tokenSettings.SymbolDenom := by
  refine ⟨?_, rfl⟩
  have hlp : latestPrice k.AllMedianPrices tokenSettings.SymbolDenom
      = .error (.priceNotFound tokenSettings.SymbolDenom) := by
    rcases latestPrice_cases k.AllMedianPrices tokenSettings.SymbolDenom with
      ⟨herr, _⟩ | ⟨m, hm, hd, _, _, _⟩
    · exact herr
    · exact absurd hd (hnone m hm)
  rw [Prices_after k index supply pre post aa total1 indexPrices1 hs hsplit hpre]
  simp only [valuationLoop, hts, hlp]

/-- Witness of C11 as amended: the scenario of a missing price, where the oracle has no
median for `ATOM`. -/
theorem prices_missing_price_witness :
    Prices gapKeeper gapIndex = .fail (unpriced [usdtEntry]) (.priceNotFound "ATOM") ∧
    (Error.priceNotFound "ATOM").message = "price not found in oracle for denom " ++ "ATOM" :=
  prices_missing_price gapKeeper gapIndex ⟨0, []⟩ [⟨"uusdt"⟩] [] ⟨"uatom"⟩ ⟨"ATOM", 6⟩
    ⟨1000000000000000000⟩ (unpriced [usdtEntry]) rfl rfl (by decide) rfl (by decide)

/-- C11, counterexample. Token settings are found for `uatom`, the oracle has no
observation for `ATOM`, and the lookups of the asset before it succeed (token settings,
price and balance entry of `uusdt`); `Prices` still does not return the error that names
`ATOM`: `valueInUSD` fails on the exponent 19 of `uusdt` first. -/
theorem prices_missing_price_other_error :
    farGapKeeper.IndexBalances gapIndex.Denom = .ok missBalances ∧
    farGapKeeper.GetTokenSettings "uatom" = .ok ⟨"ATOM", 6⟩ ∧
    (∀ p ∈ farGapKeeper.AllMedianPrices, p.ExchangeRateTuple.Denom ≠ "ATOM") ∧
    resolvedPrice farGapKeeper ⟨"uusdt"⟩ = some ⟨1000000000000000000⟩ ∧
    0 ≤ (missBalances.AssetBalance "uusdt").2 ∧
    Prices farGapKeeper gapIndex
      = .fail (unpriced [{ usdtEntry with Exponent := 19 }]) (.invalidExponent (-19)) ∧
    ¬ ∃ indexPrices,
        Prices farGapKeeper gapIndex = .fail indexPrices (.priceNotFound "ATOM") := by
  have hfar : Prices farGapKeeper gapIndex
      = .fail (unpriced [{ usdtEntry with Exponent := 19 }]) (.invalidExponent (-19)) := by
    decide
  refine ⟨rfl, rfl, by decide, by decide, by decide, hfar, ?_⟩
  rintro ⟨indexPrices, h⟩
  rw [hfar] at h
  simp at h

/-- C13. Invalid exponent is surfaced: when `ExponentFactor(exponent, 0)` fails, `valueInUSD`
and `priceInUSD` return that error for every amount and every price or total value, with
no value; and `Prices`, with meTokens minted, fails with the same error when it values the
reserves of an accepted asset of that exponent, and when it prices an index of that
exponent. -/
theorem exponent_fault_surfaced (exponent : Nat) (err : Error)
    (hfault : ExponentFactor exponent usdExponent = .error err) :
    (∀ (amount : Int) (assetPrice : Dec), valueInUSD amount assetPrice exponent = .error err) ∧
    (∀ (amount : Int) (totalValue : Dec), priceInUSD amount totalValue exponent = .error err) ∧
    (∀ (k : Keeper) (index : Index) (supply : IndexBalances) (pre post : List AcceptedAsset)
        (aa : AcceptedAsset) (tokenSettings : Token) (assetPrice total1 : Dec)
        (indexPrices1 : IndexPrices),
      k.IndexBalances index.Denom = .ok supply → supply.MetokenSupply ≠ 0 →
      index.AcceptedAssets = pre ++ aa :: post →
      valuationLoop k supply k.AllMedianPrices pre (EmptyIndexPrices index) Dec.ZeroDec
        = .next (indexPrices1, total1) →
      k.GetTokenSettings aa.Denom = .ok tokenSettings → tokenSettings.Exponent = exponent →
      latestPrice k.AllMedianPrices tokenSettings.SymbolDenom = .ok assetPrice →
      0 ≤ (supply.AssetBalance aa.Denom).2 →
      ∃ indexPrices, Prices k index = .fail indexPrices err) ∧
    (∀ (k : Keeper) (index : Index) (supply : IndexBalances) (total : Dec)
        (indexPrices1 : IndexPrices),
      k.IndexBalances index.Denom = .ok supply → supply.MetokenSupply ≠ 0 →
      index.Exponent = exponent →
      valuationLoop k supply k.AllMedianPrices index.AcceptedAssets (EmptyIndexPrices index)
        Dec.ZeroDec = .next (indexPrices1, total) →
      Prices k index = .fail indexPrices1 err) := by
  have hvalue : ∀ (amount : Int) (assetPrice : Dec),
      valueInUSD amount assetPrice exponent = .error err := by
    intro amount assetPrice
    simp only [valueInUSD, hfault]
  have hprice : ∀ (amount : Int) (totalValue : Dec),
      priceInUSD amount totalValue exponent = .error err := by
    intro amount totalValue
    simp only [priceInUSD, hfault]
  refine ⟨hvalue, hprice, ?_, ?_⟩
  · intro k index supply pre post aa tokenSettings assetPrice total1 indexPrices1 hs hminted
      hsplit hpre hts hexp hlp hfound
    rw [Prices_after k index supply pre post aa total1 indexPrices1 hs hsplit hpre]
    rcases hab : supply.AssetBalance aa.Denom with ⟨balance, i⟩
    rw [hab] at hfound
    have hi : ¬ i < 0 := by simpa using hfound
    simp only [valuationLoop, hts, hlp, hminted, if_false, hab, hi, hexp, hvalue]
    exact ⟨_, rfl⟩
  · intro k index supply total indexPrices1 hs hminted hexp hloop
    simp only [Prices, valuation, hs, hloop, indexPriceStage, hminted, if_false, hexp, hprice]

/-- Witness of C13: the exponent 19 has no factor; `valueInUSD` and `priceInUSD` return the
fault, and so does `Prices` for an accepted asset and for an index of that exponent. -/
theorem exponent_fault_surfaced_witness :
    ExponentFactor 19 usdExponent = .error (.invalidExponent (-19)) ∧
    valueInUSD 5000000 ⟨1000000000000000000⟩ 19 = .error (.invalidExponent (-19)) ∧
    priceInUSD 100000000 ⟨5000000000000000000⟩ 19 = .error (.invalidExponent (-19)) ∧
    (∃ indexPrices, Prices farKeeper gapIndex = .fail indexPrices (.invalidExponent (-19))) ∧
    Prices missKeeper farIndex
      = .fail { Denom := "me/FAR", Price := none, Exponent := 19, Assets := [usdtEntry] }
          (.invalidExponent (-19)) :=
  ⟨rfl,
    (exponent_fault_surfaced 19 (.invalidExponent (-19)) (by rfl)).1 5000000 ⟨1000000000000000000⟩,
    (exponent_fault_surfaced 19 (.invalidExponent (-19)) (by rfl)).2.1 100000000
      ⟨5000000000000000000⟩,
    (exponent_fault_surfaced 19 (.invalidExponent (-19)) (by rfl)).2.2.1 farKeeper gapIndex
      missBalances [] [⟨"uatom"⟩] ⟨"uusdt"⟩ ⟨"USDT", 19⟩ ⟨1000000000000000000⟩ Dec.ZeroDec
      (EmptyIndexPrices gapIndex) rfl (by decide) rfl rfl rfl rfl rfl (by decide),
    (exponent_fault_surfaced 19 (.invalidExponent (-19)) (by rfl)).2.2.2 missKeeper farIndex
      missBalances ⟨5000000000000000000⟩
      { Denom := "me/FAR", Price := none, Exponent := 19, Assets := [usdtEntry] }
      rfl (by decide) rfl (by decide)⟩

/-! ## Exponent-normalized amounts -/

theorem ExponentFactor_usd_ok {exponent : Nat} (h : exponent ≤ 18) :
    ExponentFactor exponent usdExponent = .ok ⟨10 ^ (18 - exponent)⟩ := by
  unfold ExponentFactor usdExponent
  have hrange : -18 ≤ ((0 : Nat) : Int) - (exponent : Int) ∧
      ((0 : Nat) : Int) - (exponent : Int) ≤ 76 := by omega
  have hnat : ((0 : Nat) : Int) - (exponent : Int) + 18 = ((18 - exponent : Nat) : Int) := by
    omega
  simp only [hrange, and_self, if_true, hnat, Int.toNat_ofNat]

/-- A whole number of units is not changed by the rounding to 18 decimals. -/
theorem Dec.chopPrecisionAndRound_units (y : Int) :
    Dec.chopPrecisionAndRound (10 ^ 18 * y) = y := by
  have hnat : Dec.chopPrecisionAndRoundNat (10 ^ 18 * y.natAbs) = y.natAbs := by
    unfold Dec.chopPrecisionAndRoundNat
    simp only [Dec.Precision]
    norm_num
  have habs : (10 ^ 18 * y).natAbs = 10 ^ 18 * y.natAbs := by
    rw [Int.natAbs_mul]
    norm_num
  unfold Dec.chopPrecisionAndRound
  rw [habs, hnat]
  split_ifs with hneg <;> omega

/-- The rounding to 18 decimals keeps the sign or gives zero. -/
theorem Dec.chopPrecisionAndRound_sign (x : Int) :
    (0 ≤ x → 0 ≤ Dec.chopPrecisionAndRound x) ∧ (x ≤ 0 → Dec.chopPrecisionAndRound x ≤ 0) := by
  have hzero : Dec.chopPrecisionAndRoundNat 0 = 0 := by
    unfold Dec.chopPrecisionAndRoundNat
    simp
  unfold Dec.chopPrecisionAndRound
  constructor
  · intro hx
    have : ¬ x < 0 := by omega
    simp only [this, if_false]
    exact Int.ofNat_nonneg _
  · intro hx
    split_ifs with hneg
    · have := Int.ofNat_nonneg (Dec.chopPrecisionAndRoundNat x.natAbs)
      omega
    · have hx0 : x = 0 := by omega
      rw [hx0]
      simp [hzero]

/-- The rounding to 18 decimals of a number is at most its 18-decimal truncation plus
one, in magnitude. -/
theorem Dec.chopPrecisionAndRound_natAbs_le (x : Int) :
    (Dec.chopPrecisionAndRound x).natAbs ≤ x.natAbs / 10 ^ 18 + 1 := by
  have hnat : Dec.chopPrecisionAndRoundNat x.natAbs ≤ x.natAbs / 10 ^ 18 + 1 := by
    unfold Dec.chopPrecisionAndRoundNat
    simp only [Dec.Precision]
    split_ifs <;> omega
  unfold Dec.chopPrecisionAndRound
  split_ifs with hneg
  · rw [Int.natAbs_neg, Int.natAbs_ofNat]
    exact hnat
  · rw [Int.natAbs_ofNat]
    exact hnat

/-- On a tie the rounding to 18 decimals goes to the even unit. -/
theorem Dec.chopPrecisionAndRound_tie (x : Int)
    (h : Dec.chopPrecisionAndRound x * 10 ^ 18 - x = 5 * 10 ^ 17 ∨
      Dec.chopPrecisionAndRound x * 10 ^ 18 - x = -(5 * 10 ^ 17)) :
    Dec.chopPrecisionAndRound x % 2 = 0 := by
  have hnat : ∀ d : Nat,
      (Dec.chopPrecisionAndRoundNat d * 10 ^ 18 = d + 5 * 10 ^ 17 ∨
        Dec.chopPrecisionAndRoundNat d * 10 ^ 18 + 5 * 10 ^ 17 = d) →
      Dec.chopPrecisionAndRoundNat d % 2 = 0 := by
    intro d
    unfold Dec.chopPrecisionAndRoundNat
    simp only [Dec.Precision]
    norm_num
    split_ifs <;> omega
  have hx := hnat x.natAbs
  unfold Dec.chopPrecisionAndRound at h ⊢
  norm_num at h hx ⊢
  split_ifs at h ⊢ with hneg <;> omega

/-- The product of an exponent factor towards exponent 0 and an amount under `2^255` is
within the 315 bits of a decimal. -/
theorem Dec.MulInt_factor_fits (exponent : Nat) (amount : Int)
    (hamount : amount.natAbs < 2 ^ 255) :
    ((10 : Int) ^ (18 - exponent) * amount).natAbs < 2 ^ 315 := by
  have hpow : (10 : Nat) ^ (18 - exponent) ≤ 10 ^ 18 :=
    Nat.pow_le_pow_right (by decide) (Nat.sub_le 18 exponent)
  have habs : ((10 : Int) ^ (18 - exponent) * amount).natAbs
      = 10 ^ (18 - exponent) * amount.natAbs := by
    rw [Int.natAbs_mul, Int.natAbs_pow]
    rfl
  rw [habs]
  calc 10 ^ (18 - exponent) * amount.natAbs
      ≤ 10 ^ 18 * amount.natAbs := Nat.mul_le_mul_right _ hpow
    _ < 10 ^ 18 * 2 ^ 255 := Nat.mul_lt_mul_of_pos_left hamount (by norm_num)
    _ ≤ 2 ^ 315 := by norm_num

/-- C12, as amended. For an amount, a price and an asset exponent for which the exponent
factor exists: the exponent is at most 18 and the factor is `10^(0 - assetExponent)`
(`10^(18 - assetExponent)` units of `10^-18`); its product with the amount is exact, and
`MulInt` returns it when it fits the 315 bits of a decimal, as it does for every amount
under `2^255`, and panics otherwise; `valueInUSD` returns that product times the price,
rounded once to 18 decimals, half to even (at most half a unit off, a tie going to the even
unit), when this result fits the 315 bits too, and panics otherwise; for
`assetExponent = 0` the result is `amount * price` exactly. -/
theorem valueInUSD_value (amount : Int) (assetPrice : Dec) (assetExponent : Nat)
    (exponentFactor : Dec)
    (hf : ExponentFactor assetExponent usdExponent = .ok exponentFactor) :
    assetExponent ≤ 18 ∧ exponentFactor.i = 10 ^ (18 - assetExponent) ∧
    exponentFactor.MulInt amount =
      (if (10 ^ (18 - assetExponent) * amount).natAbs < 2 ^ 315 then
        some ⟨10 ^ (18 - assetExponent) * amount⟩
      else none) ∧
    (amount.natAbs < 2 ^ 255 → (10 ^ (18 - assetExponent) * amount).natAbs < 2 ^ 315) ∧
    valueInUSD amount assetPrice assetExponent =
      (if (10 ^ (18 - assetExponent) * amount).natAbs < 2 ^ 315 ∧
          (Dec.chopPrecisionAndRound
            (10 ^ (18 - assetExponent) * amount * assetPrice.i)).natAbs < 2 ^ 315 then
        .ok ⟨Dec.chopPrecisionAndRound (10 ^ (18 - assetExponent) * amount * assetPrice.i)⟩
      else .panic) ∧
    (Dec.chopPrecisionAndRound (10 ^ (18 - assetExponent) * amount * assetPrice.i) * 10 ^ 18
        - 10 ^ (18 - assetExponent) * amount * assetPrice.i ≤ 5 * 10 ^ 17 ∧
      -(5 * 10 ^ 17) ≤
        Dec.chopPrecisionAndRound (10 ^ (18 - assetExponent) * amount * assetPrice.i) * 10 ^ 18
          - 10 ^ (18 - assetExponent) * amount * assetPrice.i) ∧
    ((Dec.chopPrecisionAndRound (10 ^ (18 - assetExponent) * amount * assetPrice.i) * 10 ^ 18
          - 10 ^ (18 - assetExponent) * amount * assetPrice.i = 5 * 10 ^ 17 ∨
        Dec.chopPrecisionAndRound (10 ^ (18 - assetExponent) * amount * assetPrice.i) * 10 ^ 18
          - 10 ^ (18 - assetExponent) * amount * assetPrice.i = -(5 * 10 ^ 17)) →
      Dec.chopPrecisionAndRound (10 ^ (18 - assetExponent) * amount * assetPrice.i) % 2 = 0) ∧
    (assetExponent = 0 →
      Dec.chopPrecisionAndRound (10 ^ (18 - assetExponent) * amount * assetPrice.i)
        = amount * assetPrice.i) := by
  obtain ⟨hle, hfi⟩ := ExponentFactor_usd hf
  have hfeq : exponentFactor = ⟨10 ^ (18 - assetExponent)⟩ := by
    cases exponentFactor
    simp only at hfi
    rw [hfi]
  have hmul : Dec.MulInt ⟨10 ^ (18 - assetExponent)⟩ amount =
      (if (10 ^ (18 - assetExponent) * amount).natAbs < 2 ^ 315 then
        some ⟨10 ^ (18 - assetExponent) * amount⟩
      else none) := rfl
  refine ⟨hle, hfi, by rw [hfeq]; exact hmul, Dec.MulInt_factor_fits assetExponent amount, ?_,
    Dec.chopPrecisionAndRound_bounds _, Dec.chopPrecisionAndRound_tie _, ?_⟩
  · by_cases hfits1 : (10 ^ (18 - assetExponent) * amount).natAbs < 2 ^ 315
    · by_cases hfits2 : (Dec.chopPrecisionAndRound
          (10 ^ (18 - assetExponent) * amount * assetPrice.i)).natAbs < 2 ^ 315
      · simp only [valueInUSD, hf, hfeq, hmul, hfits1, Dec.Mul, Dec.checked, Dec.maxDecBitLen,
          hfits2, if_true, and_self]
      · simp only [valueInUSD, hf, hfeq, hmul, hfits1, Dec.Mul, Dec.checked, Dec.maxDecBitLen,
          hfits2, if_true, if_false, and_false]
    · simp only [valueInUSD, hf, hfeq, hmul, hfits1, if_false, false_and]
  · intro h0
    rw [h0, Nat.sub_zero, Int.mul_assoc]
    exact Dec.chopPrecisionAndRound_units _

/-- Witness of C12 as amended: 20000 `USDT` at exponent 6 and price 1.00 are worth 20000. -/
theorem valueInUSD_value_witness :
    valueInUSD 20000000000 ⟨1000000000000000000⟩ 6 = .ok (Dec.ofInt 20000) ∧
    (6 ≤ 18 ∧ (⟨1000000000000⟩ : Dec).i = 10 ^ (18 - 6) ∧
      Dec.MulInt ⟨1000000000000⟩ 20000000000 =
        (if ((10 : Int) ^ (18 - 6) * 20000000000).natAbs < 2 ^ 315 then
          some ⟨10 ^ (18 - 6) * 20000000000⟩
        else none) ∧
      ((20000000000 : Int).natAbs < 2 ^ 255 →
        ((10 : Int) ^ (18 - 6) * 20000000000).natAbs < 2 ^ 315) ∧
      valueInUSD 20000000000 ⟨1000000000000000000⟩ 6 =
        (if ((10 : Int) ^ (18 - 6) * 20000000000).natAbs < 2 ^ 315 ∧
            (Dec.chopPrecisionAndRound
              (10 ^ (18 - 6) * 20000000000
                * (⟨1000000000000000000⟩ : Dec).i)).natAbs < 2 ^ 315 then
          .ok ⟨Dec.chopPrecisionAndRound
            (10 ^ (18 - 6) * 20000000000 * (⟨1000000000000000000⟩ : Dec).i)⟩
        else .panic) ∧
      (Dec.chopPrecisionAndRound
            (10 ^ (18 - 6) * 20000000000 * (⟨1000000000000000000⟩ : Dec).i) * 10 ^ 18
          - 10 ^ (18 - 6) * 20000000000 * (⟨1000000000000000000⟩ : Dec).i ≤ 5 * 10 ^ 17 ∧
        -(5 * 10 ^ 17) ≤
          Dec.chopPrecisionAndRound
              (10 ^ (18 - 6) * 20000000000 * (⟨1000000000000000000⟩ : Dec).i) * 10 ^ 18
            - 10 ^ (18 - 6) * 20000000000 * (⟨1000000000000000000⟩ : Dec).i) ∧
      ((Dec.chopPrecisionAndRound
              (10 ^ (18 - 6) * 20000000000 * (⟨1000000000000000000⟩ : Dec).i) * 10 ^ 18
            - 10 ^ (18 - 6) * 20000000000 * (⟨1000000000000000000⟩ : Dec).i = 5 * 10 ^ 17 ∨
          Dec.chopPrecisionAndRound
              (10 ^ (18 - 6) * 20000000000 * (⟨1000000000000000000⟩ : Dec).i) * 10 ^ 18
            - 10 ^ (18 - 6) * 20000000000 * (⟨1000000000000000000⟩ : Dec).i
              = -(5 * 10 ^ 17)) →
        Dec.chopPrecisionAndRound
            (10 ^ (18 - 6) * 20000000000 * (⟨1000000000000000000⟩ : Dec).i) % 2 = 0) ∧
      (6 = 0 →
        Dec.chopPrecisionAndRound
            (10 ^ (18 - 6) * 20000000000 * (⟨1000000000000000000⟩ : Dec).i)
          = 20000000000 * (⟨1000000000000000000⟩ : Dec).i)) :=
  ⟨by decide,
    valueInUSD_value 20000000000 ⟨1000000000000000000⟩ 6 ⟨1000000000000⟩ (by rfl)⟩

/-- C12, counterexample. The exponent factor of exponent 0 exists, the amount `2^255` is
within the 256 bits of an `sdkmath.Int` and its product with the factor within the 315 bits
of a decimal, and the price `2^255` units of `10^-18` is a decimal, yet `valueInUSD` returns
no value: the product with the price overflows the decimal and the multiplication
panics. -/
theorem valueInUSD_overflow_panics :
    ExponentFactor 0 usdExponent = .ok Dec.OneDec ∧
    twoPow255.natAbs < 2 ^ 256 ∧
    Dec.MulInt Dec.OneDec twoPow255 = some ⟨Dec.OneDec.i * twoPow255⟩ ∧
    Dec.checked twoPow255 = some ⟨twoPow255⟩ ∧
    valueInUSD twoPow255 ⟨twoPow255⟩ 0 = .panic :=
  ⟨by rfl, by decide, by decide, by decide, by decide⟩

/-- The quotient of a decimal under `2^255` units by a decimal is within the 315 bits of a
decimal. -/
theorem Dec.Quo_fits (totalValue divisor : Dec) (ht : totalValue.i.natAbs < 2 ^ 255) :
    (Dec.chopPrecisionAndRound
      (Int.tdiv (totalValue.i * Dec.precisionReuse * Dec.precisionReuse) divisor.i)).natAbs
      < 2 ^ 315 := by
  have hpr : Dec.precisionReuse = 10 ^ 18 := rfl
  rw [hpr]
  have h1 := Dec.chopPrecisionAndRound_natAbs_le
    (Int.tdiv (totalValue.i * 10 ^ 18 * 10 ^ 18) divisor.i)
  have h2 : (Int.tdiv (totalValue.i * 10 ^ 18 * 10 ^ 18) divisor.i).natAbs
      ≤ (totalValue.i * 10 ^ 18 * 10 ^ 18).natAbs := by
    rw [Int.natAbs_tdiv]
    exact Nat.div_le_self _ _
  have h3 : (totalValue.i * 10 ^ 18 * 10 ^ 18).natAbs
      = totalValue.i.natAbs * 10 ^ 18 * 10 ^ 18 := by
    rw [Int.natAbs_mul, Int.natAbs_mul]
    norm_num
  have h4 := Nat.div_le_div_right (c := 10 ^ 18) h2
  rw [h3] at h4
  have h5 : totalValue.i.natAbs * 10 ^ 18 * 10 ^ 18 / 10 ^ 18 = totalValue.i.natAbs * 10 ^ 18 :=
    Nat.mul_div_cancel _ (by norm_num)
  rw [h5] at h4
  norm_num at h1 h4 ht ⊢
  omega

/-- C18, as amended. For a strictly positive supply amount and an index exponent from 0 to
18 whose exponent factor is `10^(0 - exponent)` (`10^(18 - exponent)` units of `10^-18`):
the factor is positive, and so is its product with the amount; `MulInt` returns this
product, the divisor, when it fits the 315 bits of a decimal, as it does for every amount
under `2^255`, and panics otherwise, and `priceInUSD` with it.  With the divisor,
`priceInUSD` never divides by zero and never returns an error; what it returns is zero or of
the sign of `totalValue` (a quotient under half a unit of `10^-18` is rounded to zero); it
returns a value whenever `totalValue` is under `2^255` units, and panics when the quotient
overflows the 315 bits of a decimal. -/
theorem priceInUSD_divisor_positive (amount : Int) (assetExponent : Nat)
    (exponentFactor : Dec)
    (hpos : 0 < amount) (hexp : assetExponent ≤ 18)
    (hf : ExponentFactor assetExponent usdExponent = .ok exponentFactor)
    (hfi : exponentFactor.i = 10 ^ (18 - assetExponent)) :
    exponentFactor.i * 10 ^ assetExponent = 10 ^ 18 ∧
    0 < exponentFactor.i ∧ 0 < exponentFactor.i * amount ∧
    (amount < 2 ^ 255 → exponentFactor.i * amount < 2 ^ 315) ∧
    exponentFactor.MulInt amount =
      (if exponentFactor.i * amount < 2 ^ 315 then some ⟨exponentFactor.i * amount⟩
       else none) ∧
    (¬ exponentFactor.i * amount < 2 ^ 315 →
      ∀ totalValue : Dec, priceInUSD amount totalValue assetExponent = .panic) ∧
    (exponentFactor.i * amount < 2 ^ 315 →
      ∀ totalValue : Dec,
        totalValue.Quo ⟨exponentFactor.i * amount⟩ =
          Dec.checked (Dec.chopPrecisionAndRound
            (Int.tdiv (totalValue.i * Dec.precisionReuse * Dec.precisionReuse)
              (exponentFactor.i * amount))) ∧
        priceInUSD amount totalValue assetExponent =
          (match totalValue.Quo ⟨exponentFactor.i * amount⟩ with
            | none => .panic
            | some price => .ok price) ∧
        (∀ price, priceInUSD amount totalValue assetExponent = .ok price →
          (0 ≤ totalValue.i → 0 ≤ price.i) ∧ (totalValue.i ≤ 0 → price.i ≤ 0)) ∧
        (totalValue.i.natAbs < 2 ^ 255 →
          ∃ price, priceInUSD amount totalValue assetExponent = .ok price)) := by
  have hfpos : 0 < exponentFactor.i := by rw [hfi]; positivity
  have hdpos : 0 < exponentFactor.i * amount := Int.mul_pos hfpos hpos
  have hone : exponentFactor.i * 10 ^ assetExponent = 10 ^ 18 := by
    rw [hfi, ← pow_add, Nat.sub_add_cancel hexp]
  have hcheck : ∀ x : Int, 0 < x → (x.natAbs < 2 ^ 315 ↔ x < 2 ^ 315) := by
    intro x hx
    norm_num
    omega
  have hmul : exponentFactor.MulInt amount =
      (if exponentFactor.i * amount < 2 ^ 315 then some ⟨exponentFactor.i * amount⟩
       else none) := by
    by_cases hfits : exponentFactor.i * amount < 2 ^ 315
    · simp only [Dec.MulInt, Dec.checked, Dec.maxDecBitLen, (hcheck _ hdpos).mpr hfits, hfits,
        if_true]
    · have hn : ¬ (exponentFactor.i * amount).natAbs < 2 ^ 315 :=
        fun h => hfits ((hcheck _ hdpos).mp h)
      simp only [Dec.MulInt, Dec.checked, Dec.maxDecBitLen, hn, hfits, if_false]
  refine ⟨hone, hfpos, hdpos, ?_, hmul, ?_, ?_⟩
  · intro hsmall
    have h1 := Dec.MulInt_factor_fits assetExponent amount (by
      have : amount.natAbs < 2 ^ 255 ↔ amount < 2 ^ 255 := by
        norm_num
        omega
      exact this.mpr hsmall)
    rw [← hfi] at h1
    exact (hcheck _ hdpos).mp h1
  · intro hbig totalValue
    simp only [priceInUSD, hf, hmul, hbig, if_false]
  · intro hfits totalValue
    have hne : exponentFactor.i * amount ≠ 0 := by omega
    have hquo : totalValue.Quo ⟨exponentFactor.i * amount⟩ =
        Dec.checked (Dec.chopPrecisionAndRound
          (Int.tdiv (totalValue.i * Dec.precisionReuse * Dec.precisionReuse)
            (exponentFactor.i * amount))) := by
      simp only [Dec.Quo, hne, if_false]
    have hprice : priceInUSD amount totalValue assetExponent =
        (match totalValue.Quo ⟨exponentFactor.i * amount⟩ with
          | none => .panic
          | some price => .ok price) := by
      simp only [priceInUSD, hf, hmul, hfits, if_true]
    refine ⟨hquo, hprice, ?_, ?_⟩
    · intro price hok
      rw [hprice, hquo] at hok
      cases hc : Dec.checked (Dec.chopPrecisionAndRound
          (Int.tdiv (totalValue.i * Dec.precisionReuse * Dec.precisionReuse)
            (exponentFactor.i * amount))) with
      | none => simp [hc] at hok
      | some price1 =>
        simp only [hc, Result.ok.injEq] at hok
        subst hok
        rw [Dec.checked_eq_some hc]
        have hpr : (0 : Int) ≤ Dec.precisionReuse := by decide
        obtain ⟨hs1, hs2⟩ := Dec.chopPrecisionAndRound_sign
          (Int.tdiv (totalValue.i * Dec.precisionReuse * Dec.precisionReuse)
            (exponentFactor.i * amount))
        constructor
        · intro ht
          apply hs1
          exact Int.tdiv_nonneg (Int.mul_nonneg (Int.mul_nonneg ht hpr) hpr) (le_of_lt hdpos)
        · intro ht
          apply hs2
          have hnum : 0 ≤ -(totalValue.i * Dec.precisionReuse * Dec.precisionReuse) := by
            have : 0 ≤ (-totalValue.i) * Dec.precisionReuse * Dec.precisionReuse :=
              Int.mul_nonneg (Int.mul_nonneg (by omega) hpr) hpr
            simpa [Int.neg_mul] using this
          have := Int.tdiv_nonneg hnum (le_of_lt hdpos)
          rw [Int.neg_tdiv] at this
          omega
    · intro ht
      have hq := Dec.Quo_fits totalValue ⟨exponentFactor.i * amount⟩ ht
      refine ⟨⟨Dec.chopPrecisionAndRound
        (Int.tdiv (totalValue.i * Dec.precisionReuse * Dec.precisionReuse)
          (exponentFactor.i * amount))⟩, ?_⟩
      rw [hprice, hquo]
      simp only [Dec.checked, Dec.maxDecBitLen, hq, if_true]

/-- Witness of C18 as amended: 100 meTokens at exponent 6. -/
theorem priceInUSD_divisor_positive_witness :
    priceInUSD 100000000 (Dec.ofInt 50000) 6 = .ok (Dec.ofInt 500) ∧
    ((⟨1000000000000⟩ : Dec).i * 10 ^ 6 = 10 ^ 18 ∧
      0 < (⟨1000000000000⟩ : Dec).i ∧ 0 < (⟨1000000000000⟩ : Dec).i * 100000000 ∧
      ((100000000 : Int) < 2 ^ 255 → (⟨1000000000000⟩ : Dec).i * 100000000 < 2 ^ 315) ∧
      Dec.MulInt ⟨1000000000000⟩ 100000000 =
        (if (⟨1000000000000⟩ : Dec).i * 100000000 < 2 ^ 315 then
          some ⟨(⟨1000000000000⟩ : Dec).i * 100000000⟩
         else none) ∧
      (¬ (⟨1000000000000⟩ : Dec).i * 100000000 < 2 ^ 315 →
        ∀ totalValue : Dec, priceInUSD 100000000 totalValue 6 = .panic) ∧
      ((⟨1000000000000⟩ : Dec).i * 100000000 < 2 ^ 315 →
        ∀ totalValue : Dec,
          totalValue.Quo ⟨(⟨1000000000000⟩ : Dec).i * 100000000⟩ =
            Dec.checked (Dec.chopPrecisionAndRound
              (Int.tdiv (totalValue.i * Dec.precisionReuse * Dec.precisionReuse)
                ((⟨1000000000000⟩ : Dec).i * 100000000))) ∧
          priceInUSD 100000000 totalValue 6 =
            (match totalValue.Quo ⟨(⟨1000000000000⟩ : Dec).i * 100000000⟩ with
              | none => .panic
              | some price => .ok price) ∧
          (∀ price, priceInUSD 100000000 totalValue 6 = .ok price →
            (0 ≤ totalValue.i → 0 ≤ price.i) ∧ (totalValue.i ≤ 0 → price.i ≤ 0)) ∧
          (totalValue.i.natAbs < 2 ^ 255 →
            ∃ price, priceInUSD 100000000 totalValue 6 = .ok price))) :=
  ⟨by decide,
    priceInUSD_divisor_positive 100000000 6 ⟨1000000000000⟩ (by decide) (by decide) (by rfl)
      rfl⟩

/-- C18, counterexample. With the positive amount 10 at exponent 0 and the positive total
value `10^-18`, `priceInUSD` returns zero, which has not the sign of the total value; and
with the amount 1 at exponent 18 and the total value `2^300` units of `10^-18` it returns no
value: the quotient overflows the decimal and the division panics. -/
theorem priceInUSD_sign_lost :
    priceInUSD 10 ⟨1⟩ 0 = .ok ⟨0⟩ ∧
    Int.sign (⟨0⟩ : Dec).i ≠ Int.sign (⟨1⟩ : Dec).i ∧
    Dec.checked twoPow300 = some ⟨twoPow300⟩ ∧
    priceInUSD 1 ⟨twoPow300⟩ 18 = .panic :=
  ⟨by decide, by decide, by decide, by decide⟩

end Metoken
